import Mathlib

/-!
Verification of the rune-lock constraint-propagation engine.

This file gives a shallow embedding of the Rust sources of the repository
(`src/index.rs`, `src/activation.rs`, `src/rune.rs`, `src/assignment.rs`,
`src/rule.rs`, `src/command.rs`, `src/fact_solver/{fact_db,view,mod,
assumption_tree,explainer}.rs`) and proves properties of the embedded
definitions.

Conventions of the embedding:
* `RunePosition` and `Activation` are `Fin 12` (the sources assert both
  indices to be below 12).
* Machine integers (`usize`, `u8`, `u32`) are modelled as `Nat`; no modelled
  operation can overflow (all values stay below 12 or below the fact-log
  length).
* The fact grid `Array2<Option<FactHandle>>` is a 12-row list of 12-entry
  rows, addressed row = position, column = activation, exactly like the
  `ndarray` layout exercised by the source's own `test_axis_lanes` test.
* `FactHandle` is a raw `Nat` index into the append-only fact log.
* Fallible Rust functions returning `Result` become `Except`; functions that
  mutate `&mut self` additionally return the new `FactDb`.
* A handful of places in the source `unwrap()` a fact-log lookup; on a
  dangling handle the process would abort there.  The embedding makes those
  lookups total by treating a dangling handle as an absent/ignored entry;
  every theorem below is used only on databases in which the affected
  handles resolve, so the choice never matters.
-/

namespace Runelock

/-- The reason sub-kind of a `Contradiction` fact.  The enum's declaration
lives in `fact_solver`'s module root; its two variants are the ones
constructed and matched throughout `fact_db.rs` and `explainer.rs`. -/
inductive ContradictionKind where
  | contradictingRequirements
  | noOptionsLeft
deriving DecidableEq, Repr

/-- `FactKind` from `fact_solver`: the kind of knowledge stored in one
(slot, value) cell, with the `ContradictionKind` payload used by
`fact_db.rs`. -/
inductive FactKind where
  | contradiction (k : ContradictionKind)
  | activationCannotBeOn
  | activationMustBeOn
deriving DecidableEq, Repr

/-- `DebugInfo` from `fact_solver/mod.rs`: a static origin string attached to
fact-reason citations. -/
structure DebugInfo where
  origin : String
deriving DecidableEq, Repr

/-- `FactReason` from `fact_solver/mod.rs`: one justification of a fact -
another fact (by handle), a rule (by index into the lock's rule list), or a
bare assumption marker. -/
inductive FactReason where
  | fact (handle : Nat) (debug : DebugInfo)
  | rule (index : Nat)
  | assumption
deriving DecidableEq, Repr

/-- `Fact` from `fact_solver/mod.rs`. -/
structure Fact where
  kind : FactKind
  activation : Fin 12
  position : Fin 12
  reasons : List FactReason
deriving DecidableEq, Repr

/-- `FactDb` from `fact_solver/fact_db.rs`: the append-only fact log plus the
12 x 12 current-fact-per-cell grid (`fact_lookup`), row-major with the row
index being the rune position, as in the source's `ndarray` layout. -/
structure FactDb where
  facts : List Fact
  fact_lookup : List (List (Option Nat))
deriving DecidableEq, Repr

/-- `FactDb::new(12, 12)` as built by `FactualSolver::new`. -/
def FactDb.new : FactDb :=
  { facts := [], fact_lookup := List.replicate 12 (List.replicate 12 none) }

/-- Read the current fact handle of cell (position, activation), i.e.
`self.fact_lookup[[position, activation]]`. -/
def FactDb.cell (db : FactDb) (position activation : Fin 12) : Option Nat :=
  (db.fact_lookup.getD position.val []).getD activation.val none

/-- Overwrite the current fact handle of cell (position, activation). -/
def FactDb.setCell (db : FactDb) (position activation : Fin 12) (h : Nat) : FactDb :=
  { db with
    fact_lookup :=
      db.fact_lookup.set position.val
        ((db.fact_lookup.getD position.val []).set activation.val (some h)) }

/-- Kind of the fact stored at a handle, `none` for a dangling handle
(where the source would `unwrap`). -/
def FactDb.kindAt (db : FactDb) (h : Nat) : Option FactKind :=
  db.facts[h]?.map (·.kind)

/-- `SingleFactIntegrationResult` from `fact_db.rs`. -/
inductive SingleFactIntegrationResult where
  | unchanged (h : Nat)
  | integrated (h : Nat)
deriving DecidableEq, Repr

/-- `Possibilities<T>` from `fact_db.rs`, specialised to complements. -/
inductive Possibilities where
  | nothing
  | single (c : Fin 12)
  | multiple
deriving DecidableEq, Repr

/-- `Possibilities::add`. -/
def Possibilities.add : Possibilities → Fin 12 → Possibilities
  | .nothing, c => .single c
  | .single _, _ => .multiple
  | .multiple, _ => .multiple

/-- `ConsolidationResult` from `fact_db.rs`. -/
inductive ConsolidationResult where
  | changes
  | unchanged
deriving DecidableEq, Repr

/-- `FactDb::integrate_single_fact`: update the single cell named by `fact`.
Returns the integration result together with the mutated database.  Mirrors
the Rust match on (existing kind, incoming kind); in the colliding
MustBe/CannotBe case the source pushes the incoming fact and a synthesized
`ContradictingRequirements` contradiction onto the log but does not write the
contradiction's handle into the grid cell. -/
def FactDb.integrate_single_fact (db : FactDb) (fact : Fact) :
    SingleFactIntegrationResult × FactDb :=
  match db.cell fact.position fact.activation with
  | some existingHandle =>
    match db.facts[existingHandle]? with
    | none =>
      -- dangling current handle: the source would abort on `unwrap()`;
      -- unreachable for the well-formed databases considered below
      (.unchanged existingHandle, db)
    | some existing =>
      match existing.kind, fact.kind with
      | .activationMustBeOn, .activationMustBeOn =>
        (.unchanged existingHandle, db)
      | .contradiction _, .contradiction _ =>
        (.unchanged existingHandle, db)
      | .activationCannotBeOn, .activationCannotBeOn =>
        (.unchanged existingHandle, db)
      | .activationMustBeOn, .contradiction _ =>
        let handle := db.facts.length
        (.integrated handle,
          FactDb.setCell { db with facts := db.facts ++ [fact] }
            fact.position fact.activation handle)
      | .activationCannotBeOn, .contradiction _ =>
        let handle := db.facts.length
        (.integrated handle,
          FactDb.setCell { db with facts := db.facts ++ [fact] }
            fact.position fact.activation handle)
      | .contradiction _, .activationMustBeOn =>
        (.unchanged existingHandle, db)
      | .contradiction _, .activationCannotBeOn =>
        (.unchanged existingHandle, db)
      | .activationCannotBeOn, .activationMustBeOn =>
        let newHandle := db.facts.length
        let contradiction : Fact :=
          { fact with
            kind := .contradiction .contradictingRequirements,
            reasons :=
              [.fact existingHandle ⟨"integrate_single_fact"⟩,
               .fact newHandle ⟨"integrate_single_fact"⟩] }
        (.integrated (newHandle + 1),
          { db with facts := db.facts ++ [fact, contradiction] })
      | .activationMustBeOn, .activationCannotBeOn =>
        let newHandle := db.facts.length
        let contradiction : Fact :=
          { fact with
            kind := .contradiction .contradictingRequirements,
            reasons :=
              [.fact existingHandle ⟨"integrate_single_fact"⟩,
               .fact newHandle ⟨"integrate_single_fact"⟩] }
        (.integrated (newHandle + 1),
          { db with facts := db.facts ++ [fact, contradiction] })
  | none =>
    let handle := db.facts.length
    (.integrated handle,
      FactDb.setCell { db with facts := db.facts ++ [fact] }
        fact.position fact.activation handle)

/-- `SingleFactIntegrationResult::expect_without_contradiction`: fail with the
handle when the fact it names is a contradiction. -/
def expect_without_contradiction (db : FactDb) (r : SingleFactIntegrationResult) :
    Except Nat SingleFactIntegrationResult :=
  match r with
  | .unchanged h =>
    match db.kindAt h with
    | some (.contradiction _) => .error h
    | _ => .ok (.unchanged h)
  | .integrated h =>
    match db.kindAt h with
    | some (.contradiction _) => .error h
    | _ => .ok (.integrated h)


/-- The axis tag of `view.rs`: `RunePosition`-view (lines = fixed position,
complements are activations) or `Activation`-view (lines = fixed activation,
complements are positions). -/
inductive ViewKind where
  | pos
  | act
deriving DecidableEq, Repr

/-- `ChooseView::choose_position` for both view kinds. -/
def choose_position : ViewKind → Fin 12 → Fin 12 → Fin 12
  | .pos, view, _ => view
  | .act, _, complement => complement

/-- `ChooseView::choose_activation` for both view kinds. -/
def choose_activation : ViewKind → Fin 12 → Fin 12 → Fin 12
  | .pos, _, complement => complement
  | .act, view, _ => view

/-- The `find_map` of `consolidate_unique_per_view`: the first complement of
the line whose current fact is `ActivationMustBeOn`, with its handle. -/
def FactDb.mustBeSearch (db : FactDb) (v : ViewKind) (view : Fin 12) :
    Option (Nat × Fin 12) :=
  (List.finRange 12).findSome? fun complement =>
    match db.cell (choose_position v view complement) (choose_activation v view complement) with
    | some h =>
      match db.kindAt h with
      | some .activationMustBeOn => some (h, complement)
      | _ => none
    | none => none

/-- The single pass of `consolidate_unique_per_view` that walks one line with
no `MustBe` fact, accumulating the open possibilities and the `CannotBe`
reasons in complement order (the source's single loop doing both). -/
def FactDb.lineScan (db : FactDb) (v : ViewKind) (view : Fin 12) :
    Possibilities × List FactReason :=
  (List.finRange 12).foldl
    (fun acc complement =>
      match db.cell (choose_position v view complement) (choose_activation v view complement) with
      | some h =>
        match db.kindAt h with
        | some (.contradiction _) => acc
        | some .activationMustBeOn => acc
          -- the source panics here ("We searched earlier for MustBeOn …");
          -- unreachable because this scan only runs when `mustBeSearch`
          -- found nothing
        | some .activationCannotBeOn =>
          (acc.1, acc.2 ++ [.fact h ⟨"consolidate_views only_one_place_left"⟩])
        | none => acc
      | none => (acc.1.add complement, acc.2))
    (.nothing, [])

/-- The facts one line of `consolidate_unique_per_view` pushes onto
`integrations`. -/
def FactDb.lineIntegrations (db : FactDb) (v : ViewKind) (view : Fin 12) :
    List Fact :=
  match db.mustBeSearch v view with
  | some (mustBeHandle, mustBeComplement) =>
    (List.finRange 12).filterMap fun complement =>
      if complement = mustBeComplement then none
      else
        some { kind := .activationCannotBeOn,
               activation := choose_activation v view complement,
               position := choose_position v view complement,
               reasons := [.fact mustBeHandle ⟨"consolidate_views must_be_fact"⟩] }
  | none =>
    let scan := db.lineScan v view
    match scan.1 with
    | .single possibility =>
      [{ kind := .activationMustBeOn,
         activation := choose_activation v view possibility,
         position := choose_position v view possibility,
         reasons := scan.2 }]
    | .nothing =>
      (List.finRange 12).map fun complement =>
        { kind := .contradiction .noOptionsLeft,
          activation := choose_activation v view complement,
          position := choose_position v view complement,
          reasons := scan.2 }
    | .multiple => []

/-- The loop body of `FactDb::integrate_consolidation`: feed the collected
facts one by one through `integrate_single_fact`, upgrading the result to
`Changes` on any integration and failing on any contradiction. -/
def FactDb.integrate_consolidation_go (db : FactDb) (integrations : List Fact)
    (acc : ConsolidationResult) : Except Nat ConsolidationResult × FactDb :=
  match integrations with
  | [] => (.ok acc, db)
  | f :: rest =>
    let step := db.integrate_single_fact f
    match expect_without_contradiction step.2 step.1 with
    | .error h => (.error h, step.2)
    | .ok (.unchanged _) => step.2.integrate_consolidation_go rest acc
    | .ok (.integrated _) => step.2.integrate_consolidation_go rest .changes

/-- `FactDb::integrate_consolidation`. -/
def FactDb.integrate_consolidation (db : FactDb) (integrations : List Fact) :
    Except Nat ConsolidationResult × FactDb :=
  db.integrate_consolidation_go integrations .unchanged

/-- The full `integrations` list of `consolidate_unique_per_view`: the
derivations of all twelve lines of the view, in line order. -/
def FactDb.viewBatch (db : FactDb) (v : ViewKind) : List Fact :=
  (List.finRange 12).flatMap fun view => db.lineIntegrations v view

/-- `FactDb::consolidate_unique_per_view::<T>`: collect the derivations of
all twelve lines of the view, then integrate them in order. -/
def FactDb.consolidate_unique_per_view (db : FactDb) (v : ViewKind) :
    Except Nat ConsolidationResult × FactDb :=
  db.integrate_consolidation (db.viewBatch v)

/-- `FactDb::possibilities_for`: the complements of the given line that are
still reported open (in the source: empty cells and - because the match arm
maps `ActivationMustBeOn` to `Some` - also cells whose current fact is a
`MustBe`). -/
def FactDb.possibilities_for (db : FactDb) (v : ViewKind) (view : Fin 12) :
    List (Fin 12) :=
  (List.finRange 12).filterMap fun complement =>
    match db.cell (choose_position v view complement) (choose_activation v view complement) with
    | some h =>
      match db.kindAt h with
      | some (.contradiction _) => none
      | some .activationCannotBeOn => none
      | some .activationMustBeOn => some complement
      | none => none
    | none => some complement

/-- The per-cell step of `FactDb::givens`: report the cell when its current
fact is a `MustBe`. -/
def FactDb.givenAt (db : FactDb) (position activation : Fin 12) :
    Option ((Fin 12 × Fin 12) × Nat) :=
  match db.cell position activation with
  | some h =>
    match db.kindAt h with
    | some .activationMustBeOn => some ((position, activation), h)
    | _ => none
  | none => none

/-- `FactDb::givens`: all cells whose current fact is a `MustBe`, in the
row-major order of `indexed_iter`, with their handles. -/
def FactDb.givens (db : FactDb) : List ((Fin 12 × Fin 12) × Nat) :=
  (List.finRange 12).flatMap fun position =>
    (List.finRange 12).filterMap fun activation =>
      db.givenAt position activation


/-- `Rune` from `rune.rs`: a label identified by a raw `u8`. -/
structure Rune where
  id : Nat
deriving DecidableEq, Repr

/-- `Activation::next` from `activation.rs`: `Activation::new(self.0 + 1)`,
an out-of-bounds error at 11. -/
def activationNext (a : Fin 12) : Except Unit (Fin 12) :=
  if h : a.val + 1 < 12 then .ok ⟨a.val + 1, h⟩ else .error ()

/-- `SANTOR` from `index.rs`: positional weights, outer circle then inner
circle. -/
def SANTOR : List Nat := [7, 5, 2, 0, 2, 5, 6, 4, 3, 1, 3, 4]

/-- `MAX_SANTOR` from `index.rs`. -/
def MAX_SANTOR : Nat := 7

/-- `MIN_SANTOR` from `index.rs` (the source defines it as 7, identical to
`MAX_SANTOR`, although the smallest entry of `SANTOR` is 0). -/
def MIN_SANTOR : Nat := 7

/-- `RunePosition::santor`. -/
def santor (p : Fin 12) : Nat := SANTOR.getD p.val 0

/-- `RunePosition::antiakian_conjugate`. -/
def antiakian_conjugate (p : Fin 12) : Fin 12 :=
  if p.val < 6 then ⟨(p.val + 3) % 6, by omega⟩
  else ⟨(p.val + 3) % 6 + 6, by omega⟩

/-- `RunePosition::alwanese_of`. -/
def alwanese_of (p other : Fin 12) : Bool :=
  let distance := (12 + p.val - other.val) % 6
  distance ≤ 2 && distance > 0

/-- `RunePosition::alwanese_conjugate_of`. -/
def alwanese_conjugate_of (p other : Fin 12) : Bool :=
  p.val % 6 == (other.val + 3) % 6

/-- `RunePosition::antakian_twins`. -/
def antakian_twins (p other : Fin 12) : Bool :=
  decide ((p.val < 6) ↔ (other.val < 6))

/-- `RunePosition::antakian_conjugate_of`. -/
def antakian_conjugate_of (p other : Fin 12) : Bool :=
  antakian_twins p other && alwanese_conjugate_of p other

/-- `RunePosition::increases_santor`. -/
def increases_santor (p other : Fin 12) : Bool :=
  santor p < santor other

/-- `RunePosition::max_0_conductive`. -/
def max_0_conductive (p two : Fin 12) : Bool :=
  match antakian_twins p two with
  | true => (p.val + 1) % 6 == two.val % 6 || (two.val + 1) % 6 == p.val % 6
  | false => (p.val + 6) % 12 == two.val

/-- `AssignmentError` from `assignment.rs` (only the duplicate-Value variant
exists; the duplicate-position variant is commented out in the source). -/
inductive AssignmentError where
  | activationDoubleAssigned (activation : Fin 12) (position_a position_b : Fin 12)
deriving DecidableEq, Repr

/-- `Assignment` from `assignment.rs`: the two inverse lookup arrays. -/
structure Assignment where
  activation_of_position : List (Option (Fin 12))
  position_of_activation : List (Option (Fin 12))
deriving DecidableEq, Repr

/-- The all-empty assignment. -/
def Assignment.empty : Assignment :=
  { activation_of_position := List.replicate 12 none,
    position_of_activation := List.replicate 12 none }

/-- `Assignment::position_of`. -/
def Assignment.position_of (a : Assignment) (activation : Fin 12) : Option (Fin 12) :=
  a.position_of_activation.getD activation.val none

/-- `assignment[position]` (the `Index<RunePosition>` impl). -/
def Assignment.at_position (a : Assignment) (position : Fin 12) : Option (Fin 12) :=
  a.activation_of_position.getD position.val none

/-- Modelled from the spec: `Assignment::from_tuple_iter` is called by
`FactDb::fixed_assignment` and `RuleKind::validate_tuple` but its definition
is not among the available sources of the repository.  Per the spec it builds
a partial assignment from (Slot, Value) tuples through the checking
constructor, which "must not error" exactly when no Value is duplicated, and
reports `ActivationDoubleAssigned` when one Value lands on two positions.  A
tuple re-using an earlier tuple's position silently overwrites that slot
(only the duplicate-Value check is expressible as an `AssignmentError`). -/
def Assignment.addTuple (acc : Except AssignmentError Assignment)
    (t : Fin 12 × Fin 12) : Except AssignmentError Assignment :=
  match acc with
  | .error e => .error e
  | .ok a =>
    match a.position_of t.2 with
    | some old => .error (.activationDoubleAssigned t.2 t.1 old)
    | none =>
      .ok { activation_of_position := a.activation_of_position.set t.1.val (some t.2),
            position_of_activation := a.position_of_activation.set t.2.val (some t.1) }

/-- See `Assignment.addTuple` for the fold step. -/
def Assignment.from_tuple_iter (tuples : List (Fin 12 × Fin 12)) :
    Except AssignmentError Assignment :=
  tuples.foldl Assignment.addTuple (.ok Assignment.empty)

/-- `RuleKind` from `rule.rs`. -/
inductive RuleKind where
  | alwanese (first second : Fin 12)
  | antakianConjugates (first second : Fin 12)
  | alwaneseConjugates (first second : Fin 12)
  | differentRunes (first second : Fin 12)
  | antakianTwins (first second : Fin 12)
  | increaseSantor (first second : Fin 12)
  | runeFollowsImmediately (first second : Rune)
  | max0Conductive (first second : Fin 12)
deriving DecidableEq, Repr

/-- `RuleError` from `rule.rs`. -/
inductive RuleError where
  | violated
  | unfulfillable
deriving DecidableEq, Repr

/-- `RuneLock` from `main.rs`: the fixed labels and the rule list. -/
structure RuneLock where
  runes : List Rune
  rules : List RuleKind
deriving DecidableEq, Repr

/-- The label of a position, `lock.runes[position]`. -/
def RuneLock.runeAt (lock : RuneLock) (p : Fin 12) : Rune :=
  lock.runes.getD p.val ⟨0⟩

/-- The inner per-position check of the `RuneFollowsImmediately` arm of
`RuleKind::validate`. -/
def runeFollowsCheck (lock : RuneLock) (assignment : Assignment)
    (first second : Rune) (position : Fin 12) : Except RuleError Unit :=
  if lock.runeAt position = first then
    match assignment.at_position position with
    | some firstAssignment =>
      match activationNext firstAssignment with
      | .error _ => .error .unfulfillable
      | .ok next =>
        match assignment.position_of next with
        | some secondPosition =>
          if lock.runeAt secondPosition ≠ second then .error .violated else .ok ()
        | none => .ok ()
    | none => .ok ()
  else .ok ()

/-- `RuleKind::validate` from `rule.rs`, arm for arm. -/
def RuleKind.validate (rule : RuleKind) (lock : RuneLock) (assignment : Assignment) :
    Except RuleError Unit :=
  match rule with
  | .alwanese first second =>
    match assignment.position_of first, assignment.position_of second with
    | some one, some two => if ¬ alwanese_of two one then .error .violated else .ok ()
    | _, _ => .ok ()
  | .antakianConjugates first second =>
    match assignment.position_of first, assignment.position_of second with
    | none, some three =>
      if (assignment.at_position (antiakian_conjugate three)).isSome then
        .error .unfulfillable
      else .ok ()
    | some two, none =>
      if (assignment.at_position (antiakian_conjugate two)).isSome then
        .error .unfulfillable
      else .ok ()
    | some one, some two =>
      if ¬ antakian_conjugate_of one two then .error .violated else .ok ()
    | none, none => .ok ()
  | .alwaneseConjugates first second =>
    match assignment.position_of first, assignment.position_of second with
    | some one, some two =>
      if ¬ alwanese_conjugate_of one two then .error .violated else .ok ()
    | _, _ => .ok ()
  | .differentRunes first second =>
    match assignment.position_of first, assignment.position_of second with
    | some one, some two =>
      if lock.runeAt one = lock.runeAt two then .error .violated else .ok ()
    | _, _ => .ok ()
  | .antakianTwins first second =>
    match assignment.position_of first, assignment.position_of second with
    | some one, some two =>
      if ¬ antakian_twins one two then .error .violated else .ok ()
    | _, _ => .ok ()
  | .increaseSantor first second =>
    match assignment.position_of first, assignment.position_of second with
    | some f, some s => if ¬ increases_santor f s then .error .violated else .ok ()
    | some f, none => if santor f = MAX_SANTOR then .error .unfulfillable else .ok ()
    | none, some s => if santor s = MIN_SANTOR then .error .unfulfillable else .ok ()
    | none, none => .ok ()
  | .runeFollowsImmediately first second =>
    (List.finRange 12).foldl
      (fun acc position =>
        match acc with
        | .error e => .error e
        | .ok _ => runeFollowsCheck lock assignment first second position)
      (.ok ())
  | .max0Conductive first second =>
    match assignment.position_of first, assignment.position_of second with
    | some one, some two =>
      if ¬ max_0_conductive one two then .error .violated else .ok ()
    | _, _ => .ok ()

/-- `ValidateTupleError` from `rule.rs`. -/
inductive ValidateTupleError where
  | invalidAssignment (e : AssignmentError)
  | ruleError (e : RuleError)
deriving DecidableEq, Repr

/-- `RuleKind::validate_tuple`: build a throwaway two-element assignment and
re-use `validate`. -/
def RuleKind.validate_tuple (rule : RuleKind) (lock : RuneLock)
    (a b : Fin 12 × Fin 12) : Except ValidateTupleError Unit :=
  match Assignment.from_tuple_iter [a, b] with
  | .error e => .error (.invalidAssignment e)
  | .ok fakeAssignment =>
    match rule.validate lock fakeAssignment with
    | .error e => .error (.ruleError e)
    | .ok _ => .ok ()

/-- `FactDb::fixed_assignment`: project the `MustBe` cells through the
assignment constructor. -/
def FactDb.fixed_assignment (db : FactDb) : Except AssignmentError Assignment :=
  Assignment.from_tuple_iter (db.givens.map (·.1))

/-- The `first`/`second` activation pair of the seven activation-pair rule
kinds (the or-pattern of the big match arm in `consolidate_rules`); `none`
for `RuneFollowsImmediately`. -/
def RuleKind.activationPair : RuleKind → Option (Fin 12 × Fin 12)
  | .alwanese f s => some (f, s)
  | .antakianConjugates f s => some (f, s)
  | .alwaneseConjugates f s => some (f, s)
  | .differentRunes f s => some (f, s)
  | .antakianTwins f s => some (f, s)
  | .increaseSantor f s => some (f, s)
  | .max0Conductive f s => some (f, s)
  | .runeFollowsImmediately _ _ => none

/-- The facts `FactDb::consolidate_rules` pushes for one given fact and one
rule. -/
def FactDb.ruleIntegrationsFor (db : FactDb) (lock : RuneLock)
    (givenPosition givenActivation : Fin 12) (givenHandle : Nat)
    (ruleIndex : Nat) (rule : RuleKind) : List Fact :=
  match rule.activationPair with
  | some (first, second) =>
    [(first, second), (second, first)].flatMap fun (this, other) =>
      if this = givenActivation then
        (db.possibilities_for .act other).filterMap fun possibility =>
          match rule.validate_tuple lock (givenPosition, givenActivation)
              (possibility, other) with
          | .ok _ => none
          | .error _ =>
            some { kind := .activationCannotBeOn,
                   activation := other,
                   position := possibility,
                   reasons := [.fact givenHandle ⟨"consolidate_rules"⟩,
                               .rule ruleIndex] }
      else []
  | none =>
    match rule with
    | .runeFollowsImmediately first _ =>
      let givenRune := lock.runeAt givenPosition
      [(first, activationNext givenActivation)].flatMap
        fun (rune, affectedActivation) =>
          if givenRune = rune then
            match affectedActivation with
            | .ok affected =>
              (db.possibilities_for .act affected).filterMap fun possibility =>
                match rule.validate_tuple lock (givenPosition, givenActivation)
                    (possibility, affected) with
                | .ok _ => none
                | .error _ =>
                  some { kind := .activationCannotBeOn,
                         activation := affected,
                         position := possibility,
                         reasons := [.fact givenHandle ⟨"consolidate_rules runes"⟩,
                                     .rule ruleIndex] }
            | .error _ =>
              [{ kind := .activationCannotBeOn,
                 activation := givenActivation,
                 position := givenPosition,
                 reasons := [.fact givenHandle ⟨"consolidate_rules runes"⟩,
                             .rule ruleIndex] }]
          else []
    | _ => []

/-- The full `integrations` list of `FactDb::consolidate_rules`. -/
def FactDb.ruleIntegrations (db : FactDb) (lock : RuneLock) : List Fact :=
  db.givens.flatMap fun g =>
    lock.rules.enum.flatMap fun r =>
      db.ruleIntegrationsFor lock g.1.1 g.1.2 g.2 r.1 r.2

/-- `FactDb::consolidate_rules`. -/
def FactDb.consolidate_rules (db : FactDb) (lock : RuneLock) :
    Except Nat ConsolidationResult × FactDb :=
  db.integrate_consolidation (db.ruleIntegrations lock)

/-- One iteration of the consolidation loop of
`integrate_and_consolidate`: per-position uniqueness, per-activation
uniqueness, then rule propagation, each feeding the next, with the `changed`
flag being the disjunction of the three results. -/
def FactDb.consolidationPass (db : FactDb) (lock : RuneLock) :
    Except Nat ConsolidationResult × FactDb :=
  match db.consolidate_unique_per_view .pos with
  | (.error e, db1) => (.error e, db1)
  | (.ok r1, db1) =>
    match db1.consolidate_unique_per_view .act with
    | (.error e, db2) => (.error e, db2)
    | (.ok r2, db2) =>
      match db2.consolidate_rules lock with
      | (.error e, db3) => (.error e, db3)
      | (.ok r3, db3) =>
        match r1, r2, r3 with
        | .unchanged, .unchanged, .unchanged => (.ok .unchanged, db3)
        | _, _, _ => (.ok .changes, db3)

/-- The `loop` of `integrate_and_consolidate`, made total with a fuel
argument; `none` means the fuel ran out before the fixpoint was reached (the
source loops unboundedly, which every concrete run below avoids with ample
fuel). -/
def FactDb.consolidationLoop (db : FactDb) (lock : RuneLock) :
    Nat → Option (Except Nat Unit × FactDb)
  | 0 => none
  | fuel + 1 =>
    match db.consolidationPass lock with
    | (.error e, db1) => some (.error e, db1)
    | (.ok .unchanged, db1) => some (.ok (), db1)
    | (.ok .changes, db1) => db1.consolidationLoop lock fuel

/-- `FactDb::integrate_and_consolidate`: the single public write path.
Integrate the one fact; stop at once (keeping the mutation) when that
produced a contradiction or changed nothing; otherwise run the consolidation
loop to its fixpoint. -/
def FactDb.integrate_and_consolidate (db : FactDb) (fact : Fact) (lock : RuneLock)
    (fuel : Nat) : Option (Except Nat Unit × FactDb) :=
  let step := db.integrate_single_fact fact
  match expect_without_contradiction step.2 step.1 with
  | .error h => some (.error h, step.2)
  | .ok (.unchanged _) => some (.ok (), step.2)
  | .ok (.integrated _) => step.2.consolidationLoop lock fuel

/-- `AssumptionTreeNode<T>` from `assumption_tree.rs`. -/
structure AssumptionTreeNode (T : Type) where
  parent : Option Nat
  data : T
  children : List Nat
deriving DecidableEq, Repr

/-- `AssumptionTree<T>`: the node arena (handles are plain indices). -/
structure AssumptionTree (T : Type) where
  nodes : List (AssumptionTreeNode T)
deriving DecidableEq, Repr

/-- `AssumptionTree::new`. -/
def AssumptionTree.new {T : Type} (initial : T) : AssumptionTree T × Nat :=
  ({ nodes := [{ parent := none, data := initial, children := [] }] }, 0)

/-- `AssumptionTree::insert_child`: push the child node, then record its
handle in the parent's child list (the source indexes `nodes[parent]`, which
is in bounds in every use below). -/
def AssumptionTree.insert_child {T : Type} (t : AssumptionTree T) (parent : Nat)
    (child : T) : AssumptionTree T × Nat :=
  let childNode : AssumptionTreeNode T := { parent := some parent, data := child, children := [] }
  let nodes1 := t.nodes ++ [childNode]
  let childHandle := nodes1.length - 1
  let parentNode := nodes1.getD parent childNode
  ({ nodes := nodes1.set parent
      { parentNode with children := parentNode.children ++ [childHandle] } },
   childHandle)

/-- `AssumptionTreeError` from `assumption_tree.rs`. -/
inductive AssumptionTreeError where
  | unknownNode (n : Nat)
deriving DecidableEq, Repr

/-- `AssumptionTree::get_handle`. -/
def AssumptionTree.get_handle {T : Type} (t : AssumptionTree T) (node : Nat) :
    Except AssumptionTreeError Nat :=
  if node ≥ t.nodes.length then .error (.unknownNode node) else .ok node

/-- `SolverAction` from `fact_solver/mod.rs`. -/
inductive SolverAction where
  | assumeAct (position activation : Fin 12)
  | root
deriving DecidableEq, Repr

/-- `SolverStateState` from `fact_solver/mod.rs`. -/
inductive SolverStateState where
  | unexplored
  | contradicts (h : Nat)
deriving DecidableEq, Repr

/-- `FactSolverState` from `fact_solver/mod.rs`. -/
structure FactSolverState where
  facts : FactDb
  action : SolverAction
  state : SolverStateState
deriving DecidableEq, Repr

/-- The root state built by `FactualSolver::new`. -/
def FactSolverState.rootState : FactSolverState :=
  { facts := FactDb.new, action := .root, state := .unexplored }

/-- `FactualSolver` (minus the borrowed lock, which every operation takes as
an argument). -/
structure FactualSolver where
  states : AssumptionTree FactSolverState
  current : Nat
deriving DecidableEq, Repr

/-- `FactualSolver::new`. -/
def FactualSolver.new : FactualSolver :=
  let t := AssumptionTree.new FactSolverState.rootState
  { states := t.1, current := t.2 }

/-- The node the cursor points at (`self.states[self.current]`; indexing is
in bounds in every use below). -/
def FactualSolver.currentNode (s : FactualSolver) : AssumptionTreeNode FactSolverState :=
  s.states.nodes.getD s.current { parent := none, data := FactSolverState.rootState, children := [] }

/-- `FactualSolver::assume`: clone the cursor node's database, integrate an
assumption-justified `MustBe` fact, record the outcome as a child node of the
cursor node - with no look at that node's own status - and move the cursor
to the child. -/
def FactualSolver.assume (s : FactualSolver) (lock : RuneLock)
    (activation position : Fin 12) (fuel : Nat) : Option FactualSolver :=
  let derived := s.currentNode.data.facts
  match derived.integrate_and_consolidate
      { kind := .activationMustBeOn, reasons := [.assumption],
        position := position, activation := activation } lock fuel with
  | none => none
  | some (result, db) =>
    let st : SolverStateState :=
      match result with
      | .ok _ => .unexplored
      | .error reason => .contradicts reason
    let inserted := s.states.insert_child s.current
      { facts := db, action := .assumeAct position activation, state := st }
    some { states := inserted.1, current := inserted.2 }

/-- `FactualSolver::try_possibilities`: assume every still-open candidate of
the line in turn, restoring the cursor after each one. -/
def FactualSolver.try_possibilities (s : FactualSolver) (lock : RuneLock)
    (v : ViewKind) (it : Fin 12) (fuel : Nat) : Option FactualSolver :=
  let current := s.current
  let possibilities := s.currentNode.data.facts.possibilities_for v it
  possibilities.foldl
    (fun acc possibility =>
      match acc with
      | none => none
      | some st =>
        match st.assume lock (choose_activation v it possibility)
            (choose_position v it possibility) fuel with
        | none => none
        | some st1 => some { st1 with current := current })
    (some s)

/-- `FactExceptPosition` from `explainer.rs`: the grouping key of the
explanation output - a cited fact with its position forgotten. -/
structure FactExceptPosition where
  kind : FactKind
  activation : Fin 12
  reasons : List FactReason
deriving DecidableEq, Repr

/-- `FactExceptPosition::from`. -/
def FactExceptPosition.ofFact (f : Fact) : FactExceptPosition :=
  { kind := f.kind, activation := f.activation, reasons := f.reasons }

/-- The recursion skeleton of `explain_fact_d` from `explainer.rs`, with the
printing dropped: visit the fact, group its fact-citations by
`FactExceptPosition`, and recurse (through `print_fact_reason`) into every
fact-reason of every group key.  Fuel-indexed because the source function has
no depth bound at all; `true` means the traversal completed within the given
fuel. -/
def FactDb.explainVisit (db : FactDb) : Nat → Nat → Bool
  | 0, _ => false
  | fuel + 1, handle =>
    match db.facts[handle]? with
    | none => true
    | some fact =>
      let cited := fact.reasons.filterMap fun r =>
        match r with
        | .fact h _ => some h
        | _ => none
      let citedFacts := cited.filterMap fun h =>
        db.facts[h]?.map FactExceptPosition.ofFact
      let keys := citedFacts.dedup
      keys.all fun key =>
        key.reasons.all fun r =>
          match r with
          | .fact h _ => db.explainVisit fuel h
          | _ => true

/-- `RunePosition::new` from `index.rs`: `assert!(index < 12)` - `none`
models the process abort of a failed assertion. -/
def runePositionNew (index : Nat) : Option (Fin 12) :=
  if h : index < 12 then some ⟨index, h⟩ else none

/-- `Activation::from_human` from `activation.rs`: 1-based, out-of-bounds is
a recoverable error. -/
def activationFromHuman (oneBased : Nat) : Except Unit (Fin 12) :=
  if oneBased < 1 then .error ()
  else if h : oneBased - 1 < 12 then .ok ⟨oneBased - 1, h⟩
  else .error ()

/-- `SolverCommandError` from `command.rs` (argument payloads dropped where
they are only display text). -/
inductive SolverCommandError where
  | unknownCommand
  | notEnoughArguments (expected : Nat)
  | numberFormat
  | activationInvalid
deriving DecidableEq, Repr

/-- `SolverCommand` from `command.rs`. -/
inductive SolverCommand where
  | view (node : Nat)
  | assumeCmd (position : Fin 12) (activation : Fin 12)
  | tryInPosition (position : Fin 12)
  | tryActivation (activation : Fin 12)
  | explainCmd (factHandle : Nat)
  | dump
deriving DecidableEq, Repr

/-- The `"assume"` arm of `SolverCommand::parse` after its two arguments have
been read as numbers (string-to-number parsing is outside the modelled core):
the source first calls `RunePosition::new(position)` - whose assertion
aborts the process on an out-of-range slot, modelled as `none` - and only
then converts the 1-based activation, whose failure is a recoverable
`SolverCommandError`. -/
def parseAssumeArgs (position activation : Nat) :
    Option (Except SolverCommandError SolverCommand) :=
  match runePositionNew position with
  | none => none
  | some p =>
    match activationFromHuman activation with
    | .error _ => some (.error .activationInvalid)
    | .ok a => some (.ok (.assumeCmd p a))

/-- The `"tryposition"` arm of `SolverCommand::parse` after numeric parsing:
it also funnels the slot index through `RunePosition::new`'s assertion. -/
def parseTryPositionArgs (position : Nat) :
    Option (Except SolverCommandError SolverCommand) :=
  match runePositionNew position with
  | none => none
  | some p => some (.ok (.tryInPosition p))

/-- The kind of the current fact of a cell, `none` when the cell is empty
(or its handle dangles). -/
def FactDb.cellKind (db : FactDb) (position activation : Fin 12) : Option FactKind :=
  match db.cell position activation with
  | some h => db.kindAt h
  | none => none

/-- Boolean success projection of an `Except`. -/
def exceptOk {ε α : Type} : Except ε α → Bool
  | .ok _ => true
  | .error _ => false

/-- Two fact kinds that collide in `integrate_single_fact` (one `MustBe`,
the other `CannotBe`). -/
def collidingKinds (a b : FactKind) : Prop :=
  (a = .activationCannotBeOn ∧ b = .activationMustBeOn) ∨
    (a = .activationMustBeOn ∧ b = .activationCannotBeOn)


theorem list_getD_set_ne {α : Type} (l : List α) (i j : Nat) (x : α) (d : α)
    (hij : i ≠ j) : (l.set i x).getD j d = l.getD j d := by
  simp [List.getD, List.getElem?_set_ne hij]

theorem list_getD_set_self {α : Type} (l : List α) (i : Nat) (x : α) (d : α)
    (h : i < l.length) : (l.set i x).getD i d = x := by
  simp [List.getD, List.getElem?_set_self', h]

/-- `setCell` never changes the fact log. -/
theorem setCell_facts (db : FactDb) (P A : Fin 12) (h : Nat) :
    (db.setCell P A h).facts = db.facts := rfl

/-- `setCell` leaves every other cell alone. -/
theorem setCell_cell_ne (db : FactDb) (P A p a : Fin 12) (h : Nat)
    (hne : (p, a) ≠ (P, A)) :
    (db.setCell P A h).cell p a = db.cell p a := by
  unfold FactDb.setCell FactDb.cell
  simp only
  by_cases hp : p.val = P.val
  · have hpa : a.val ≠ A.val := by
      intro haa
      exact hne (by
        have h1 : p = P := Fin.ext hp
        have h2 : a = A := Fin.ext haa
        rw [h1, h2])
    rcases Nat.lt_or_ge P.val db.fact_lookup.length with hlt | hge
    · rw [hp, list_getD_set_self _ _ _ _ hlt]
      exact list_getD_set_ne _ _ _ _ _ (fun hh => hpa hh.symm)
    · rw [List.set_eq_of_length_le hge]
  · rw [list_getD_set_ne _ _ _ _ _ (fun hh => hp hh.symm)]

/-- `integrate_single_fact` only ever appends to the fact log. -/
theorem isf_facts_prefix (db : FactDb) (f : Fact) :
    ∃ ext, (db.integrate_single_fact f).2.facts = db.facts ++ ext := by
  unfold FactDb.integrate_single_fact
  cases hcell : db.cell f.position f.activation with
  | none => exact ⟨[f], rfl⟩
  | some h =>
    simp only [hcell]
    cases hget : db.facts[h]? with
    | none => simp only [hget]; exact ⟨[], by simp⟩
    | some existing =>
      simp only [hget]
      cases hek : existing.kind <;> cases hfk : f.kind <;>
        simp [FactDb.setCell]

/-- A fact-log entry survives any `integrate_single_fact` call. -/
theorem isf_getElem_stable (db : FactDb) (f : Fact) (h : Nat) (fa : Fact)
    (hh : db.facts[h]? = some fa) :
    (db.integrate_single_fact f).2.facts[h]? = some fa := by
  obtain ⟨ext, hext⟩ := isf_facts_prefix db f
  rw [hext, List.getElem?_append_left]
  · exact hh
  · rw [List.getElem?_eq_some] at hh
    exact hh.1

/-- An `Unchanged` result of `integrate_single_fact` leaves the database
untouched. -/
theorem isf_unchanged_eq (db : FactDb) (f : Fact) (h : Nat)
    (hr : (db.integrate_single_fact f).1 = .unchanged h) :
    (db.integrate_single_fact f).2 = db := by
  unfold FactDb.integrate_single_fact at hr ⊢
  cases hcell : db.cell f.position f.activation with
  | none => simp only [hcell] at hr; simp at hr
  | some eh =>
    simp only [hcell] at hr ⊢
    cases hget : db.facts[eh]? with
    | none => simp only [hget]
    | some existing =>
      simp only [hget] at hr ⊢
      cases hek : existing.kind <;> cases hfk : f.kind <;>
        simp only [hek, hfk] at hr ⊢ <;> first | rfl | simp at hr

/-- `integrate_single_fact` does not touch any cell other than the one its
fact names. -/
theorem isf_cell_other (db : FactDb) (f : Fact) (p a : Fin 12)
    (hne : (p, a) ≠ (f.position, f.activation)) :
    (db.integrate_single_fact f).2.cell p a = db.cell p a := by
  unfold FactDb.integrate_single_fact
  cases hcell : db.cell f.position f.activation with
  | none => simp only [hcell]; exact setCell_cell_ne _ _ _ _ _ _ hne
  | some eh =>
    simp only [hcell]
    cases hget : db.facts[eh]? with
    | none => simp only [hget]
    | some existing =>
      simp only [hget]
      cases hek : existing.kind <;> cases hfk : f.kind <;>
        simp only [hek, hfk] <;>
        first
          | rfl
          | exact setCell_cell_ne _ _ _ _ _ _ hne

/-- The colliding MustBe/CannotBe case of `integrate_single_fact`, spelled
out: the incoming fact and a synthesized `ContradictingRequirements`
contradiction citing exactly the two colliding facts are appended to the
log, the result is `Integrated` with the contradiction's handle, and the
grid is left as it was. -/
theorem isf_collision_eq (db : FactDb) (f : Fact) (eh : Nat) (existing : Fact)
    (hcell : db.cell f.position f.activation = some eh)
    (hget : db.facts[eh]? = some existing)
    (hcol : collidingKinds existing.kind f.kind) :
    db.integrate_single_fact f =
      (.integrated (db.facts.length + 1),
        { db with facts := db.facts ++
            [f, { f with
                  kind := .contradiction .contradictingRequirements,
                  reasons :=
                    [.fact eh ⟨"integrate_single_fact"⟩,
                     .fact db.facts.length ⟨"integrate_single_fact"⟩] }] }) := by
  unfold FactDb.integrate_single_fact
  simp only [hcell, hget]
  rcases hcol with ⟨h1, h2⟩ | ⟨h1, h2⟩ <;> simp only [h1, h2]

/-- The absorbing-contradiction case of `integrate_single_fact`: a cell whose
current fact is a contradiction is never written again. -/
theorem isf_contradiction_absorbs (db : FactDb) (f : Fact) (eh : Nat)
    (existing : Fact) (k : ContradictionKind)
    (hcell : db.cell f.position f.activation = some eh)
    (hget : db.facts[eh]? = some existing)
    (hek : existing.kind = .contradiction k) :
    db.integrate_single_fact f = (.unchanged eh, db) := by
  unfold FactDb.integrate_single_fact
  simp only [hcell, hget]
  cases hfk : f.kind <;> simp only [hek, hfk]

/-- The equal-kind case of `integrate_single_fact` for the two
non-contradiction kinds: nothing changes. -/
theorem isf_equal_kind_eq (db : FactDb) (f : Fact) (eh : Nat) (existing : Fact)
    (hcell : db.cell f.position f.activation = some eh)
    (hget : db.facts[eh]? = some existing)
    (hek : existing.kind = f.kind)
    (hnc : ∀ k, f.kind ≠ .contradiction k) :
    db.integrate_single_fact f = (.unchanged eh, db) := by
  unfold FactDb.integrate_single_fact
  simp only [hcell, hget, hek]
  cases hfk : f.kind with
  | contradiction k => exact absurd hfk (hnc k)
  | activationCannotBeOn => simp only [hfk]
  | activationMustBeOn => simp only [hfk]

theorem list_getElem_append_pair {α : Type} (l : List α) (a b : α) :
    (l ++ [a, b])[l.length + 1]? = some b := by
  rw [List.getElem?_append_right (by omega)]
  simp

theorem list_getElem_append_one {α : Type} (l : List α) (a : α) (rest : List α) :
    (l ++ a :: rest)[l.length]? = some a := by
  rw [List.getElem?_append_right (by omega)]
  simp

/-- A run of `integrate_consolidation_go` that started with the `Changes`
accumulator can only report `Changes`. -/
theorem go_changes (l : List Fact) (db : FactDb) (r : ConsolidationResult)
    (db' : FactDb)
    (hgo : db.integrate_consolidation_go l .changes = (.ok r, db')) :
    r = .changes := by
  induction l generalizing db with
  | nil =>
    unfold FactDb.integrate_consolidation_go at hgo
    cases hgo
    rfl
  | cons g rest ih =>
    unfold FactDb.integrate_consolidation_go at hgo
    cases hexp : expect_without_contradiction (db.integrate_single_fact g).2
        (db.integrate_single_fact g).1 with
    | error e => simp only [hexp] at hgo; simp at hgo
    | ok rr =>
      cases rr <;> simp only [hexp] at hgo <;> exact ih _ hgo

/-- A run of `integrate_consolidation_go` that reports `Unchanged` has not
modified the database. -/
theorem go_unchanged (l : List Fact) (db : FactDb) (acc : ConsolidationResult)
    (db' : FactDb)
    (hgo : db.integrate_consolidation_go l acc = (.ok .unchanged, db')) :
    db' = db := by
  induction l generalizing db with
  | nil =>
    unfold FactDb.integrate_consolidation_go at hgo
    cases hgo
    rfl
  | cons g rest ih =>
    unfold FactDb.integrate_consolidation_go at hgo
    cases hexp : expect_without_contradiction (db.integrate_single_fact g).2
        (db.integrate_single_fact g).1 with
    | error e => simp only [hexp] at hgo; simp at hgo
    | ok rr =>
      cases rr with
      | unchanged h =>
        simp only [hexp] at hgo
        have hdb : (db.integrate_single_fact g).2 = db := by
          apply isf_unchanged_eq db g h
          unfold expect_without_contradiction at hexp
          cases hr : (db.integrate_single_fact g).1 with
          | unchanged hh =>
            simp only [hr] at hexp
            cases hk : (db.integrate_single_fact g).2.kindAt hh <;>
              simp only [hk] at hexp
            · cases hexp; rfl
            · rename_i k
              cases k <;> simp only at hexp <;> cases hexp <;> rfl
          | integrated hh =>
            simp only [hr] at hexp
            cases hk : (db.integrate_single_fact g).2.kindAt hh <;>
              simp only [hk] at hexp
            · cases hexp
            · rename_i k
              cases k <;> simp only at hexp <;> cases hexp
        rw [hdb] at hgo
        exact ih _ hgo
      | integrated h =>
        simp only [hexp] at hgo
        exact absurd (go_changes _ _ _ _ hgo) (by intro hh; cases hh)

/-- If some fact in the batch collides with the database's current fact at
its cell, and no earlier batch entry of the same cell can defuse the
collision (same-cell entries all carry the same kind), then feeding the
batch through `integrate_consolidation_go` cannot succeed: the first
same-cell integration reached produces a contradiction. -/
theorem go_collision (l : List Fact) (db : FactDb) (acc : ConsolidationResult)
    (f : Fact) (hmem : f ∈ l)
    (huniq : ∀ g ∈ l, g.position = f.position → g.activation = f.activation →
      g.kind = f.kind)
    (eh : Nat) (existing : Fact)
    (hcell : db.cell f.position f.activation = some eh)
    (hget : db.facts[eh]? = some existing)
    (hcol : collidingKinds existing.kind f.kind) :
    exceptOk (db.integrate_consolidation_go l acc).1 = false := by
  induction l generalizing db acc eh existing with
  | nil => cases hmem
  | cons g rest ih =>
    unfold FactDb.integrate_consolidation_go
    by_cases htar : g.position = f.position ∧ g.activation = f.activation
    · have hkind : g.kind = f.kind := huniq g (List.mem_cons_self g rest) htar.1 htar.2
      have hcellg : db.cell g.position g.activation = some eh := by
        rw [htar.1, htar.2]; exact hcell
      have hcolg : collidingKinds existing.kind g.kind := by rw [hkind]; exact hcol
      have hstep := isf_collision_eq db g eh existing hcellg hget hcolg
      rw [hstep]
      have hkat :
          ({ db with facts := db.facts ++
              [g, { g with
                    kind := .contradiction .contradictingRequirements,
                    reasons :=
                      [.fact eh ⟨"integrate_single_fact"⟩,
                       .fact db.facts.length ⟨"integrate_single_fact"⟩] }] } :
            FactDb).kindAt (db.facts.length + 1) =
            some (.contradiction .contradictingRequirements) := by
        unfold FactDb.kindAt
        rw [list_getElem_append_pair]
        rfl
      unfold expect_without_contradiction
      simp only [hkat]
      rfl
    · have hne : f ≠ g := by
        intro hh
        exact htar ⟨by rw [hh], by rw [hh]⟩
      have hmem' : f ∈ rest := by
        cases hmem with
        | head => exact absurd rfl hne
        | tail _ hm => exact hm
      have hnetar : (f.position, f.activation) ≠ (g.position, g.activation) := by
        intro hh
        exact htar ⟨(Prod.mk.injEq _ _ _ _ ▸ hh).1.symm, (Prod.mk.injEq _ _ _ _ ▸ hh).2.symm⟩
      cases hexp : expect_without_contradiction (db.integrate_single_fact g).2
          (db.integrate_single_fact g).1 with
      | error e => simp only [hexp]; rfl
      | ok rr =>
        have hcell1 : (db.integrate_single_fact g).2.cell f.position f.activation = some eh := by
          rw [isf_cell_other db g f.position f.activation hnetar]
          exact hcell
        have hget1 : (db.integrate_single_fact g).2.facts[eh]? = some existing :=
          isf_getElem_stable db g eh existing hget
        have huniq' : ∀ g' ∈ rest, g'.position = f.position →
            g'.activation = f.activation → g'.kind = f.kind :=
          fun g' hm => huniq g' (List.mem_cons_of_mem g hm)
        cases rr <;> simp only [hexp] <;>
          exact ih _ _ hmem' huniq' eh existing hcell1 hget1 hcol

/-- The two coordinate projections of a view determine the line index. -/
theorem view_coords_inj (v : ViewKind) (j c i c' : Fin 12)
    (hp : choose_position v j c = choose_position v i c')
    (ha : choose_activation v j c = choose_activation v i c') :
    j = i ∧ c = c' := by
  cases v <;> exact ⟨by assumption, by assumption⟩

/-- When a line has a `MustBe` cell, every fact the uniqueness pass derives
for a cell of that line is a `CannotBe`. -/
theorem viewBatch_kind_at_line (db : FactDb) (v : ViewKind) (i : Fin 12)
    (hmb : Nat) (cmb : Fin 12)
    (hsearch : db.mustBeSearch v i = some (hmb, cmb))
    (c' : Fin 12) (g : Fact) (hg : g ∈ db.viewBatch v)
    (hp : g.position = choose_position v i c')
    (ha : g.activation = choose_activation v i c') :
    g.kind = .activationCannotBeOn := by
  unfold FactDb.viewBatch at hg
  rw [List.mem_flatMap] at hg
  obtain ⟨j, _, hgj⟩ := hg
  unfold FactDb.lineIntegrations at hgj
  by_cases hij : j = i
  · subst hij
    rw [hsearch] at hgj
    rw [List.mem_filterMap] at hgj
    obtain ⟨c, _, hc⟩ := hgj
    by_cases hccmb : c = cmb
    · simp only [hccmb, if_pos rfl] at hc
      cases hc
    · simp only [if_neg hccmb] at hc
      cases hc
      rfl
  · exfalso
    cases hsj : db.mustBeSearch v j with
    | some pr =>
      rw [hsj] at hgj
      rw [List.mem_filterMap] at hgj
      obtain ⟨c, _, hc⟩ := hgj
      by_cases hccmb : c = pr.2
      · simp only [hccmb, if_pos rfl] at hc
        cases hc
      · simp only [if_neg hccmb] at hc
        cases hc
        exact hij (view_coords_inj v j c i c' hp ha).1
    | none =>
      rw [hsj] at hgj
      simp only at hgj
      cases hscan : (db.lineScan v j).1 with
      | single poss =>
        rw [hscan] at hgj
        rw [List.mem_singleton] at hgj
        subst hgj
        exact hij (view_coords_inj v j poss i c' hp ha).1
      | nothing =>
        rw [hscan] at hgj
        rw [List.mem_map] at hgj
        obtain ⟨c, _, hc⟩ := hgj
        subst hc
        exact hij (view_coords_inj v j c i c' hp ha).1
      | multiple =>
        rw [hscan] at hgj
        cases hgj

/-- A line with two distinct `MustBe` cells makes the per-view uniqueness
consolidation fail: the pass derives `CannotBe` for the second `MustBe`
cell, and integrating it turns into a contradiction. -/
theorem unique_view_two_mustbe_fails (db : FactDb) (v : ViewKind) (i : Fin 12)
    (c1 c2 : Fin 12) (hne : c1 ≠ c2) (h1 h2 : Nat) (f1 f2 : Fact)
    (hc1 : db.cell (choose_position v i c1) (choose_activation v i c1) = some h1)
    (hg1 : db.facts[h1]? = some f1) (hk1 : f1.kind = .activationMustBeOn)
    (hc2 : db.cell (choose_position v i c2) (choose_activation v i c2) = some h2)
    (hg2 : db.facts[h2]? = some f2) (hk2 : f2.kind = .activationMustBeOn) :
    exceptOk (db.consolidate_unique_per_view v).1 = false := by
  -- the search finds some MustBe complement
  cases hsearch : db.mustBeSearch v i with
  | none =>
    exfalso
    unfold FactDb.mustBeSearch at hsearch
    rw [List.findSome?_eq_none_iff] at hsearch
    have := hsearch c1 (List.mem_finRange c1)
    rw [hc1] at this
    simp only [FactDb.kindAt, hg1, Option.map_some'] at this
    rw [hk1] at this
    simp at this
  | some pr =>
    obtain ⟨hmb, cmb⟩ := pr
    -- pick the doubled MustBe complement the search did not pick
    have hpick : ∃ c' hcp fcp, c' ≠ cmb ∧
        db.cell (choose_position v i c') (choose_activation v i c') = some hcp ∧
        db.facts[hcp]? = some fcp ∧ fcp.kind = .activationMustBeOn := by
      by_cases h1cmb : c1 = cmb
      · exact ⟨c2, h2, f2, by rw [← h1cmb]; exact (Ne.symm hne), hc2, hg2, hk2⟩
      · exact ⟨c1, h1, f1, h1cmb, hc1, hg1, hk1⟩
    obtain ⟨c', hcp, fcp, hccmb, hcellcp, hgetcp, hkindcp⟩ := hpick
    -- the CannotBe derivation for that cell is in the batch
    have hmem :
        ({ kind := .activationCannotBeOn,
           activation := choose_activation v i c',
           position := choose_position v i c',
           reasons := [.fact hmb ⟨"consolidate_views must_be_fact"⟩] } : Fact)
          ∈ db.viewBatch v := by
      unfold FactDb.viewBatch
      rw [List.mem_flatMap]
      refine ⟨i, List.mem_finRange i, ?_⟩
      unfold FactDb.lineIntegrations
      rw [hsearch]
      rw [List.mem_filterMap]
      exact ⟨c', List.mem_finRange c', by simp only [if_neg hccmb]⟩
    unfold FactDb.consolidate_unique_per_view FactDb.integrate_consolidation
    exact go_collision _ _ _ _ hmem
      (fun g hg hp ha => viewBatch_kind_at_line db v i hmb cmb hsearch c' g hg hp ha)
      hcp fcp hcellcp hgetcp (Or.inr ⟨hkindcp, rfl⟩)

/-- A 12 x 12 grid of empty cells. -/
def emptyGrid : List (List (Option Nat)) :=
  List.replicate 12 (List.replicate 12 none)

/-- A lock with no rules (labels all alike), used by concrete runs whose
claims do not involve rule propagation. -/
def lockNoRules : RuneLock := { runes := List.replicate 12 ⟨0⟩, rules := [] }

/-- The database of an `integrate_and_consolidate` outcome (the mutated
`self` of the source), with a fallback for the fuel-exhausted case. -/
def iacResultDb (r : Option (Except Nat Unit × FactDb)) (fallback : FactDb) : FactDb :=
  match r with
  | some (_, db) => db
  | none => fallback

/-- The contradiction handle an `integrate_and_consolidate` outcome failed
with, if it failed. -/
def iacFailedWith (r : Option (Except Nat Unit × FactDb)) : Option Nat :=
  match r with
  | some (.error h, _) => some h
  | _ => none

/-- C1 (amended): `possibilities_for` yields exactly the complements whose
cell is empty or whose cell's current fact is a `MustBe`; only `CannotBe`
and `Contradiction` cells (and cells with a dangling handle, which would
abort in the source) are excluded. -/
theorem possibilities_for_open_or_mustbe (db : FactDb) (v : ViewKind)
    (view c : Fin 12) :
    c ∈ db.possibilities_for v view ↔
      (db.cell (choose_position v view c) (choose_activation v view c) = none ∨
        ∃ h f, db.cell (choose_position v view c) (choose_activation v view c) = some h ∧
          db.facts[h]? = some f ∧ f.kind = .activationMustBeOn) := by
  unfold FactDb.possibilities_for
  rw [List.mem_filterMap]
  constructor
  · rintro ⟨a, -, ha⟩
    cases hcell : db.cell (choose_position v view a) (choose_activation v view a) with
    | none =>
      rw [hcell] at ha
      cases ha
      exact Or.inl hcell
    | some h =>
      rw [hcell] at ha
      cases hget : db.facts[h]? with
      | none =>
        exfalso
        simp only [FactDb.kindAt, hget, Option.map_none'] at ha
        cases ha
      | some f =>
        cases hk : f.kind with
        | contradiction k =>
          exfalso
          simp only [FactDb.kindAt, hget, Option.map_some'] at ha
          rw [hk] at ha
          cases ha
        | activationCannotBeOn =>
          exfalso
          simp only [FactDb.kindAt, hget, Option.map_some'] at ha
          rw [hk] at ha
          cases ha
        | activationMustBeOn =>
          simp only [FactDb.kindAt, hget, Option.map_some'] at ha
          rw [hk] at ha
          cases ha
          exact Or.inr ⟨h, f, hcell, hget, hk⟩
  · intro hr
    refine ⟨c, List.mem_finRange c, ?_⟩
    rcases hr with hcell | ⟨h, f, hcell, hget, hk⟩
    · rw [hcell]
    · rw [hcell]
      simp only [FactDb.kindAt, hget, Option.map_some']
      rw [hk]

/-- A database whose only fact is a `MustBe` for value 0 on slot 0. -/
def dbOneMust : FactDb :=
  { facts := [{ kind := .activationMustBeOn, activation := 0, position := 0,
                reasons := [.assumption] }],
    fact_lookup := emptyGrid.set 0 ((List.replicate 12 none).set 0 (some 0)) }

/-- C1 (counterexample to the claim as stated): on `dbOneMust`, slot 0's
possibilities are not exactly the no-fact complements - value 0, whose cell
holds a `MustBe` fact, is reported open as well. -/
theorem possibilities_for_counterexample :
    ¬ (∀ c : Fin 12, c ∈ dbOneMust.possibilities_for .pos 0 ↔
        dbOneMust.cell (choose_position .pos 0 c) (choose_activation .pos 0 c) = none) := by
  decide

/-- C4: a cell whose current fact is a `Contradiction` absorbs every further
integration: the result is `Unchanged` with the existing handle and the
database - grid and log alike - is returned unmodified. -/
theorem contradiction_cell_is_absorbing (db : FactDb) (f : Fact) (eh : Nat)
    (existing : Fact) (k : ContradictionKind)
    (hcell : db.cell f.position f.activation = some eh)
    (hget : db.facts[eh]? = some existing)
    (hek : existing.kind = .contradiction k) :
    db.integrate_single_fact f = (.unchanged eh, db) :=
  isf_contradiction_absorbs db f eh existing k hcell hget hek

/-- A database whose only fact is a `NoOptionsLeft` contradiction on cell
(0, 0). -/
def dbOneContra : FactDb :=
  { facts := [{ kind := .contradiction .noOptionsLeft, activation := 0, position := 0,
                reasons := [] }],
    fact_lookup := emptyGrid.set 0 ((List.replicate 12 none).set 0 (some 0)) }

/-- C4 witness: integrating a `MustBe` (and a `ContradictingRequirements`
contradiction) into the contradiction cell of `dbOneContra` is a no-op. -/
theorem contradiction_cell_is_absorbing_witness :
    dbOneContra.integrate_single_fact
        { kind := .activationMustBeOn, activation := 0, position := 0,
          reasons := [.assumption] } = (.unchanged 0, dbOneContra) ∧
    dbOneContra.integrate_single_fact
        { kind := .contradiction .contradictingRequirements, activation := 0,
          position := 0, reasons := [] } = (.unchanged 0, dbOneContra) :=
  ⟨contradiction_cell_is_absorbing dbOneContra _ 0 _ .noOptionsLeft rfl rfl rfl,
   contradiction_cell_is_absorbing dbOneContra _ 0 _ .noOptionsLeft rfl rfl rfl⟩

/-- C2 (amended): integrating a fact that collides with the cell's current
`MustBe`/`CannotBe` fact appends the incoming fact and a
`ContradictingRequirements` contradiction - justified by exactly the two
colliding facts - to the log, and the whole call fails with the
contradiction's handle while the grid (including the colliding cell's
current-fact handle) is left exactly as it was; nothing is rolled back. -/
theorem integrate_collision_fails_with_contradiction (db : FactDb) (f : Fact)
    (lock : RuneLock) (fuel : Nat) (eh : Nat) (existing : Fact)
    (hcell : db.cell f.position f.activation = some eh)
    (hget : db.facts[eh]? = some existing)
    (hcol : collidingKinds existing.kind f.kind) :
    db.integrate_and_consolidate f lock fuel =
      some (.error (db.facts.length + 1),
        { db with facts := db.facts ++
            [f, { f with
                  kind := .contradiction .contradictingRequirements,
                  reasons :=
                    [.fact eh ⟨"integrate_single_fact"⟩,
                     .fact db.facts.length ⟨"integrate_single_fact"⟩] }] }) := by
  unfold FactDb.integrate_and_consolidate
  rw [isf_collision_eq db f eh existing hcell hget hcol]
  simp only [expect_without_contradiction, FactDb.kindAt, list_getElem_append_pair,
    Option.map_some']

/-- C2 witness: the general collision theorem applied to a one-fact
database. -/
theorem integrate_collision_witness :
    dbOneMust.integrate_and_consolidate
        { kind := .activationCannotBeOn, activation := 0, position := 0,
          reasons := [.assumption] } lockNoRules 9 =
      some (.error 2,
        { dbOneMust with facts := dbOneMust.facts ++
            [{ kind := .activationCannotBeOn, activation := 0, position := 0,
               reasons := [.assumption] },
             { kind := .contradiction .contradictingRequirements, activation := 0,
               position := 0,
               reasons := [.fact 0 ⟨"integrate_single_fact"⟩,
                           .fact 1 ⟨"integrate_single_fact"⟩] }] }) :=
  integrate_collision_fails_with_contradiction dbOneMust _ lockNoRules 9 0 _ rfl rfl
    (Or.inr ⟨rfl, rfl⟩)

/-- C2 (counterexample to the claim as stated): after the colliding
integration on `dbOneMust` the call fails with contradiction handle 2, but
cell (0, 0) still holds handle 0 - the `MustBe` fact - and not the
contradiction. -/
theorem integrate_collision_cell_not_updated :
    iacFailedWith (dbOneMust.integrate_and_consolidate
        { kind := .activationCannotBeOn, activation := 0, position := 0,
          reasons := [.assumption] } lockNoRules 9) = some 2 ∧
    (iacResultDb (dbOneMust.integrate_and_consolidate
        { kind := .activationCannotBeOn, activation := 0, position := 0,
          reasons := [.assumption] } lockNoRules 9) dbOneMust).kindAt 2 =
      some (.contradiction .contradictingRequirements) ∧
    (iacResultDb (dbOneMust.integrate_and_consolidate
        { kind := .activationCannotBeOn, activation := 0, position := 0,
          reasons := [.assumption] } lockNoRules 9) dbOneMust).cell 0 0 = some 0 ∧
    (iacResultDb (dbOneMust.integrate_and_consolidate
        { kind := .activationCannotBeOn, activation := 0, position := 0,
          reasons := [.assumption] } lockNoRules 9) dbOneMust).cell 0 0 ≠ some 2 := by
  refine ⟨rfl, rfl, rfl, ?_⟩
  decide

/-- The partial assignment placing only the rule's second value, on slot 3
(the slot of smallest positional weight). -/
def asgSecondAtThree : Assignment :=
  match Assignment.from_tuple_iter [(3, 1)] with
  | .ok a => a
  | .error _ => Assignment.empty

/-- The partial assignment placing only the rule's second value, on slot 0
(the slot of largest positional weight). -/
def asgSecondAtZero : Assignment :=
  match Assignment.from_tuple_iter [(0, 1)] with
  | .ok a => a
  | .error _ => Assignment.empty

/-- C5: because `MIN_SANTOR` is defined as 7 - the maximum of `SANTOR`, not
its minimum 0 - the only-second-placed arm of the positional-weight rule is
wrong in both directions: with the second value on slot 3 (weight 0, so no
slot of strictly smaller weight exists for the first value) `validate`
returns `Ok`, and with the second value on slot 0 (weight 7, so slots of
smaller weight abound) it returns `Unfulfillable`. -/
theorem increase_santor_min_santor_bug :
    (RuleKind.increaseSantor 0 1).validate lockNoRules asgSecondAtThree = .ok () ∧
    (∀ p : Fin 12, increases_santor p 3 = false) ∧
    (RuleKind.increaseSantor 0 1).validate lockNoRules asgSecondAtZero =
      .error .unfulfillable ∧
    increases_santor 1 0 = true ∧
    MIN_SANTOR = MAX_SANTOR := by
  exact ⟨rfl, by decide, rfl, rfl, rfl⟩

/-- C8: an `assume` (or `tryposition`) command with an out-of-range slot
index reaches the `assert!` inside `RunePosition::new` and aborts the
process (`= none`) instead of reporting a recoverable error, while an
out-of-range 1-based value is reported as a recoverable
`SolverCommandError`. -/
theorem out_of_range_slot_aborts :
    parseAssumeArgs 12 1 = none ∧
    parseTryPositionArgs 12 = none ∧
    parseAssumeArgs 0 13 = some (.error .activationInvalid) ∧
    parseAssumeArgs 0 0 = some (.error .activationInvalid) ∧
    parseAssumeArgs 11 12 = some (.ok (.assumeCmd 11 11)) := by
  exact ⟨rfl, rfl, rfl, rfl, rfl⟩

/-- `expect_without_contradiction` passes its argument through unchanged when
it succeeds. -/
theorem expect_ok_shape (db : FactDb) (r r' : SingleFactIntegrationResult)
    (h : expect_without_contradiction db r = .ok r') : r' = r := by
  unfold expect_without_contradiction at h
  cases r with
  | unchanged hh =>
    cases hk : db.kindAt hh with
    | none => simp only [hk] at h; cases h; rfl
    | some k =>
      cases k <;> simp only [hk] at h <;> first | cases h; rfl | cases h
  | integrated hh =>
    cases hk : db.kindAt hh with
    | none => simp only [hk] at h; cases h; rfl
    | some k =>
      cases k <;> simp only [hk] at h <;> first | cases h; rfl | cases h

/-- A uniqueness pass that reports `Unchanged` has not modified the
database. -/
theorem view_unchanged_eq (db db1 : FactDb) (v : ViewKind)
    (h : db.consolidate_unique_per_view v = (.ok .unchanged, db1)) : db1 = db := by
  unfold FactDb.consolidate_unique_per_view FactDb.integrate_consolidation at h
  exact go_unchanged _ _ _ _ h

/-- A rule pass that reports `Unchanged` has not modified the database. -/
theorem rules_unchanged_eq (db db1 : FactDb) (lock : RuneLock)
    (h : db.consolidate_rules lock = (.ok .unchanged, db1)) : db1 = db := by
  unfold FactDb.consolidate_rules FactDb.integrate_consolidation at h
  exact go_unchanged _ _ _ _ h

/-- A `consolidationPass` that reports `Unchanged` has not modified the
database, and each of its three sub-passes individually reports `Unchanged`
on that same database. -/
theorem pass_unchanged_parts (db db' : FactDb) (lock : RuneLock)
    (h : db.consolidationPass lock = (.ok .unchanged, db')) :
    db' = db ∧
    db.consolidate_unique_per_view .pos = (.ok .unchanged, db) ∧
    db.consolidate_unique_per_view .act = (.ok .unchanged, db) ∧
    db.consolidate_rules lock = (.ok .unchanged, db) := by
  unfold FactDb.consolidationPass at h
  cases hpos : db.consolidate_unique_per_view .pos with
  | mk r1 db1 =>
    simp only [hpos] at h
    cases r1 with
    | error e => simp at h
    | ok rr1 =>
      cases hact : db1.consolidate_unique_per_view .act with
      | mk r2 db2 =>
        simp only [hact] at h
        cases r2 with
        | error e => simp at h
        | ok rr2 =>
          cases hrules : db2.consolidate_rules lock with
          | mk r3 db3 =>
            simp only [hrules] at h
            cases r3 with
            | error e => simp at h
            | ok rr3 =>
              cases rr1 <;> cases rr2 <;> cases rr3 <;> simp only [] at h <;>
                try simp at h
              -- all-unchanged branch: h : db3 = db'
              have h1 : db1 = db := view_unchanged_eq _ _ _ hpos
              subst h1
              have h2 : db2 = db1 := view_unchanged_eq _ _ _ hact
              subst h2
              have h3 : db3 = db2 := rules_unchanged_eq _ _ _ hrules
              subst h3
              subst h
              exact ⟨rfl, rfl, hact, hrules⟩

/-- When the consolidation loop exits successfully, the database it returns
is a fixpoint: one more full pass reports `Unchanged` and changes nothing. -/
theorem loop_exit_fixpoint (lock : RuneLock) (fuel : Nat) (db db' : FactDb)
    (h : db.consolidationLoop lock fuel = some (.ok (), db')) :
    db'.consolidationPass lock = (.ok .unchanged, db') := by
  induction fuel generalizing db with
  | zero => simp [FactDb.consolidationLoop] at h
  | succ fuel ih =>
    unfold FactDb.consolidationLoop at h
    cases hpass : db.consolidationPass lock with
    | mk r1 db1 =>
      simp only [hpass] at h
      cases r1 with
      | error e => simp at h
      | ok rr =>
        cases rr with
        | changes => exact ih _ h
        | unchanged =>
          simp at h
          subst h
          obtain ⟨hid, -, -, -⟩ := pass_unchanged_parts _ _ _ hpass
          rw [hid]
          rw [hid] at hpass
          exact hpass

/-- On the empty database both uniqueness passes are no-ops. -/
theorem unique_view_empty (v : ViewKind) :
    FactDb.new.consolidate_unique_per_view v = (.ok .unchanged, FactDb.new) := by
  cases v <;> rfl

/-- On the empty database the rule pass is a no-op for every lock: there are
no givens, so no integrations are collected. -/
theorem rules_empty (lock : RuneLock) :
    FactDb.new.consolidate_rules lock = (.ok .unchanged, FactDb.new) := by
  unfold FactDb.consolidate_rules FactDb.ruleIntegrations
  have hg : FactDb.new.givens = [] := rfl
  rw [hg]
  rfl

/-- The empty database is already a consolidation fixpoint. -/
theorem pass_empty (lock : RuneLock) :
    FactDb.new.consolidationPass lock = (.ok .unchanged, FactDb.new) := by
  unfold FactDb.consolidationPass
  rw [unique_view_empty .pos]
  simp only
  rw [unique_view_empty .act]
  simp only
  rw [rules_empty lock]

/-- The databases reachable from the empty database through successful
(`Ok`-returning) `integrate_and_consolidate` calls, with arbitrary input
facts. -/
inductive ReachableOk (lock : RuneLock) : FactDb → Prop where
  | empty : ReachableOk lock FactDb.new
  | step (db : FactDb) (f : Fact) (fuel : Nat) (db' : FactDb) :
      ReachableOk lock db →
      db.integrate_and_consolidate f lock fuel = some (.ok (), db') →
      ReachableOk lock db'

/-- Every `Ok`-reachable database is a consolidation fixpoint. -/
theorem reachable_pass_unchanged (lock : RuneLock) (db : FactDb)
    (h : ReachableOk lock db) :
    db.consolidationPass lock = (.ok .unchanged, db) := by
  induction h with
  | empty => exact pass_empty lock
  | step db f fuel db' _ hstep ih =>
    unfold FactDb.integrate_and_consolidate at hstep
    cases hexp : expect_without_contradiction (db.integrate_single_fact f).2
        (db.integrate_single_fact f).1 with
    | error e => simp only [hexp] at hstep; simp at hstep
    | ok rr =>
      cases rr with
      | unchanged hh =>
        simp only [hexp] at hstep
        simp at hstep
        have hshape := expect_ok_shape _ _ _ hexp
        have hid := isf_unchanged_eq db f hh hshape.symm
        rw [hid] at hstep
        subst hstep
        exact ih
      | integrated hh =>
        simp only [hexp] at hstep
        exact loop_exit_fixpoint lock fuel _ _ hstep

/-- What a successful `givenAt` lookup tells about its cell. -/
theorem givenAt_some (db : FactDb) (p a : Fin 12)
    (x : (Fin 12 × Fin 12) × Nat) (hx : db.givenAt p a = some x) :
    x.1.1 = p ∧ x.1.2 = a ∧ db.cell p a = some x.2 ∧
      db.kindAt x.2 = some .activationMustBeOn := by
  unfold FactDb.givenAt at hx
  cases hcell : db.cell p a with
  | none => rw [hcell] at hx; cases hx
  | some h =>
    rw [hcell] at hx
    cases hk : db.kindAt h with
    | none => simp only [hk] at hx; cases hx
    | some k =>
      cases k with
      | contradiction kk => simp only [hk] at hx; cases hx
      | activationCannotBeOn => simp only [hk] at hx; cases hx
      | activationMustBeOn =>
        simp only [hk] at hx
        obtain rfl : ((p, a), h) = x := by injection hx
        exact ⟨rfl, rfl, rfl, hk⟩

/-- In an `Ok`-reachable database no Value holds `MustBe` facts on two
distinct Slots: otherwise the per-Value uniqueness pass of the fixpoint
check would fail. -/
theorem reachable_no_double_mustbe (lock : RuneLock) (db : FactDb)
    (h : ReachableOk lock db) (a p1 p2 : Fin 12) (hne : p1 ≠ p2)
    (h1 h2 : Nat) (f1 f2 : Fact)
    (hc1 : db.cell p1 a = some h1) (hg1 : db.facts[h1]? = some f1)
    (hk1 : f1.kind = .activationMustBeOn)
    (hc2 : db.cell p2 a = some h2) (hg2 : db.facts[h2]? = some f2)
    (hk2 : f2.kind = .activationMustBeOn) : False := by
  obtain ⟨-, -, hact, -⟩ :=
    pass_unchanged_parts db db lock (reachable_pass_unchanged lock db h)
  have hfail := unique_view_two_mustbe_fails db .act a p1 p2 hne h1 h2 f1 f2
    hc1 hg1 hk1 hc2 hg2 hk2
  rw [hact] at hfail
  simp [exceptOk] at hfail

/-- The `MustBe` projection of an `Ok`-reachable database has pairwise
distinct Values. -/
theorem reachable_givens_pairwise (lock : RuneLock) (db : FactDb)
    (h : ReachableOk lock db) :
    db.givens.Pairwise (fun g1 g2 => g1.1.2 ≠ g2.1.2) := by
  unfold FactDb.givens
  rw [List.pairwise_flatMap]
  constructor
  · intro p _
    apply List.Pairwise.filterMap (R := fun a b : Fin 12 => a ≠ b) (db.givenAt p)
    · intro a a' haa x hx x' hx' hxx
      obtain ⟨-, ha, -, -⟩ := givenAt_some db p a x hx
      obtain ⟨-, ha', -, -⟩ := givenAt_some db p a' x' hx'
      rw [ha, ha'] at hxx
      exact haa hxx
    · exact List.nodup_finRange 12
  · have hnd : (List.finRange 12).Pairwise (fun p1 p2 : Fin 12 => p1 ≠ p2) :=
      List.nodup_finRange 12
    refine hnd.imp_of_mem ?_
    intro p1 p2 _ _ hpp x hx y hy hxy
    rw [List.mem_filterMap] at hx hy
    obtain ⟨a1, -, hx⟩ := hx
    obtain ⟨a2, -, hy⟩ := hy
    obtain ⟨hxp, hxa, hxc, hxk⟩ := givenAt_some db p1 a1 x hx
    obtain ⟨hyp, hya, hyc, hyk⟩ := givenAt_some db p2 a2 y hy
    unfold FactDb.kindAt at hxk hyk
    cases hgx : db.facts[x.2]? with
    | none => rw [hgx] at hxk; cases hxk
    | some fx =>
      cases hgy : db.facts[y.2]? with
      | none => rw [hgy] at hyk; cases hyk
      | some fy =>
        rw [hgx, Option.map_some'] at hxk
        rw [hgy, Option.map_some'] at hyk
        have hxa2 : x.1.2 = a1 := hxa
        have hya2 : y.1.2 = a2 := hya
        rw [hxa2, hya2] at hxy
        rw [hxy] at hxc
        exact reachable_no_double_mustbe lock db h a2 p1 p2 hpp x.2 y.2 fx fy
          hxc (by exact hgx) (Option.some.injEq _ _ ▸ hxk)
          hyc (by exact hgy) (Option.some.injEq _ _ ▸ hyk)

/-- Folding tuples whose Values are pairwise distinct and not yet placed
never produces the duplicate-Value error. -/
theorem from_tuple_iter_fold_ok (l : List (Fin 12 × Fin 12)) (a : Assignment)
    (hinv : ∀ t ∈ l, a.position_of t.2 = none)
    (hpw : l.Pairwise (fun t1 t2 => t1.2 ≠ t2.2)) :
    exceptOk (l.foldl Assignment.addTuple (.ok a)) = true := by
  induction l generalizing a with
  | nil => rfl
  | cons t rest ih =>
    rw [List.foldl_cons]
    have hnone : a.position_of t.2 = none := hinv t (List.mem_cons_self t rest)
    have hstep : Assignment.addTuple (.ok a) t =
        .ok { activation_of_position := a.activation_of_position.set t.1.val (some t.2),
              position_of_activation := a.position_of_activation.set t.2.val (some t.1) } := by
      simp only [Assignment.addTuple, hnone]
    rw [hstep]
    rw [List.pairwise_cons] at hpw
    apply ih
    · intro t' ht'
      have hne : t.2 ≠ t'.2 := hpw.1 t' ht'
      unfold Assignment.position_of
      simp only
      rw [list_getD_set_ne]
      · exact hinv t' (List.mem_cons_of_mem t ht')
      · intro hv
        exact hne (Fin.ext hv)
    · exact hpw.2

/-- The empty assignment places nothing. -/
theorem empty_position_of (v : Fin 12) : Assignment.empty.position_of v = none := by
  fin_cases v <;> rfl

/-- C3: in every database reachable from the empty one by successful
`integrate_and_consolidate` calls, `fixed_assignment` succeeds - no Value
holds `MustBe` facts on two distinct Slots, so projecting the `MustBe` cells
through the Assignment constructor reports no duplicate-Value error. -/
theorem reachable_fixed_assignment_ok (lock : RuneLock) (db : FactDb)
    (h : ReachableOk lock db) : exceptOk db.fixed_assignment = true := by
  unfold FactDb.fixed_assignment Assignment.from_tuple_iter
  apply from_tuple_iter_fold_ok
  · intro t _
    exact empty_position_of t.2
  · have hpw := reachable_givens_pairwise lock db h
    exact List.Pairwise.map _ (fun g1 g2 hgg => hgg) hpw

/-- The single user assumption exercised by the concrete runs below: value 0
placed on slot 0. -/
def assumeFact00 : Fact :=
  { kind := .activationMustBeOn, activation := 0, position := 0,
    reasons := [.assumption] }

/-- The database a rule-free solver reaches after assuming value 0 on
slot 0: the assumption plus the 22 uniqueness-derived `CannotBe` facts. -/
def dbAfterAssume : FactDb :=
  iacResultDb (FactDb.new.integrate_and_consolidate assumeFact00 lockNoRules 4)
    FactDb.new

/-- C3 witness: the reachable database after one propagated assumption has a
well-formed fixed assignment. -/
theorem reachable_fixed_assignment_ok_witness :
    exceptOk dbAfterAssume.fixed_assignment = true :=
  reachable_fixed_assignment_ok lockNoRules dbAfterAssume
    (ReachableOk.step FactDb.new assumeFact00 4 dbAfterAssume
      ReachableOk.empty rfl)

/-- C9 (amended): consolidation is idempotent.  (i) Integrating a fact whose
kind equals the cell's current `MustBe`/`CannotBe` fact returns `Ok` with no
consolidation pass run (fuel 0 suffices) and the database unchanged;
(ii) when the equal kind is a `Contradiction` the call instead fails with the
existing contradiction's handle, still running no pass and changing nothing;
(iii) after any successful `integrate_and_consolidate` call the database is
at a fixpoint: one full pass of slot-uniqueness, value-uniqueness and rule
propagation reports `Unchanged` and integrates no new fact. -/
theorem consolidation_idempotent_fixpoint (lock : RuneLock) :
    (∀ (db : FactDb) (f : Fact) (eh : Nat) (existing : Fact),
      db.cell f.position f.activation = some eh →
      db.facts[eh]? = some existing →
      existing.kind = f.kind →
      (∀ k, f.kind ≠ .contradiction k) →
      db.integrate_and_consolidate f lock 0 = some (.ok (), db)) ∧
    (∀ (db : FactDb) (f : Fact) (eh : Nat) (existing : Fact) (k : ContradictionKind),
      db.cell f.position f.activation = some eh →
      db.facts[eh]? = some existing →
      existing.kind = f.kind →
      f.kind = .contradiction k →
      db.integrate_and_consolidate f lock 0 = some (.error eh, db)) ∧
    (∀ db : FactDb, ReachableOk lock db →
      db.consolidationPass lock = (.ok .unchanged, db)) := by
  refine ⟨?_, ?_, reachable_pass_unchanged lock⟩
  · intro db f eh existing hcell hget heq hnc
    unfold FactDb.integrate_and_consolidate
    rw [isf_equal_kind_eq db f eh existing hcell hget heq hnc]
    simp only [expect_without_contradiction, FactDb.kindAt, hget, Option.map_some', heq]
    cases hfk : f.kind with
    | contradiction k => exact absurd hfk (hnc k)
    | activationCannotBeOn => rfl
    | activationMustBeOn => rfl
  · intro db f eh existing k hcell hget heq hfk
    have hek : existing.kind = .contradiction k := by rw [heq, hfk]
    unfold FactDb.integrate_and_consolidate
    rw [isf_contradiction_absorbs db f eh existing k hcell hget hek]
    simp only [expect_without_contradiction, FactDb.kindAt, hget, Option.map_some', hek]

/-- C9 witness: (i) re-integrating the `MustBe` of `dbOneMust` is an
unchanged `Ok` with zero fuel; (ii) re-integrating the contradiction of
`dbOneContra` fails with its handle and changes nothing; (iii) the database
reached after one propagated assumption is a consolidation fixpoint. -/
theorem consolidation_idempotent_fixpoint_witness :
    dbOneMust.integrate_and_consolidate
        { kind := .activationMustBeOn, activation := 0, position := 0,
          reasons := [] } lockNoRules 0 = some (.ok (), dbOneMust) ∧
    dbOneContra.integrate_and_consolidate
        { kind := .contradiction .noOptionsLeft, activation := 0, position := 0,
          reasons := [] } lockNoRules 0 = some (.error 0, dbOneContra) ∧
    dbAfterAssume.consolidationPass lockNoRules = (.ok .unchanged, dbAfterAssume) :=
  ⟨(consolidation_idempotent_fixpoint lockNoRules).1 dbOneMust _ 0 _ rfl rfl rfl
      (by intro k h; cases h),
   (consolidation_idempotent_fixpoint lockNoRules).2.1 dbOneContra _ 0 _
      .noOptionsLeft rfl rfl rfl rfl,
   (consolidation_idempotent_fixpoint lockNoRules).2.2 dbAfterAssume
      (ReachableOk.step FactDb.new assumeFact00 4 dbAfterAssume
        ReachableOk.empty rfl)⟩

/-- C9 (counterexample to the claim as stated): integrating a fact whose
kind equals the cell's current fact does not always return Ok - when both
are Contradictions the call fails with the existing handle (while indeed
running no pass and leaving the database unchanged). -/
theorem consolidation_idempotent_counterexample :
    dbOneContra.cellKind 0 0 = some (.contradiction .noOptionsLeft) ∧
    dbOneContra.integrate_and_consolidate
        { kind := .contradiction .noOptionsLeft, activation := 0, position := 0,
          reasons := [] } lockNoRules 9 = some (.error 0, dbOneContra) := ⟨rfl, rfl⟩

/-- C10 (amended): a line with two distinct `MustBe` cells is never silently
accepted: running the per-axis uniqueness consolidation necessarily fails
with a Contradiction (the pass derives `CannotBe` for the other `MustBe`
cell and single-fact integration converts that collision into a
`ContradictingRequirements` contradiction - unless an earlier derivation of
the same batch already produced a different contradiction first). -/
theorem double_mustbe_line_never_accepted (db : FactDb) (v : ViewKind)
    (i c1 c2 : Fin 12) (hne : c1 ≠ c2) (h1 h2 : Nat) (f1 f2 : Fact)
    (hc1 : db.cell (choose_position v i c1) (choose_activation v i c1) = some h1)
    (hg1 : db.facts[h1]? = some f1) (hk1 : f1.kind = .activationMustBeOn)
    (hc2 : db.cell (choose_position v i c2) (choose_activation v i c2) = some h2)
    (hg2 : db.facts[h2]? = some f2) (hk2 : f2.kind = .activationMustBeOn) :
    exceptOk (db.consolidate_unique_per_view v).1 = false :=
  unique_view_two_mustbe_fails db v i c1 c2 hne h1 h2 f1 f2 hc1 hg1 hk1 hc2 hg2 hk2

/-- A database whose slot-0 line holds two `MustBe` facts (values 0 and 1). -/
def dbTwoMust : FactDb :=
  { facts := [{ kind := .activationMustBeOn, activation := 0, position := 0,
                reasons := [.assumption] },
              { kind := .activationMustBeOn, activation := 1, position := 0,
                reasons := [.assumption] }],
    fact_lookup := emptyGrid.set 0
      (((List.replicate 12 none).set 0 (some 0)).set 1 (some 1)) }

/-- C10 witness: the double-`MustBe` slot line of `dbTwoMust` makes the
slot-view uniqueness pass fail. -/
theorem double_mustbe_line_never_accepted_witness :
    exceptOk (dbTwoMust.consolidate_unique_per_view .pos).1 = false :=
  double_mustbe_line_never_accepted dbTwoMust .pos 0 0 1 (by decide) 0 1 _ _
    rfl rfl rfl rfl rfl rfl

/-- A database with an exhausted slot line (slot 0 all `CannotBe`) and a
double-`MustBe` slot line (slot 1, values 0 and 1). -/
def dbExhaustedPlusDouble : FactDb :=
  { facts := (List.finRange 12).map
      (fun a => { kind := .activationCannotBeOn, activation := a, position := 0,
                  reasons := [] }) ++
      [{ kind := .activationMustBeOn, activation := 0, position := 1, reasons := [] },
       { kind := .activationMustBeOn, activation := 1, position := 1, reasons := [] }],
    fact_lookup :=
      (emptyGrid.set 0 ((List.range 12).map some)).set 1
        (((List.replicate 12 none).set 0 (some 12)).set 1 (some 13)) }

/-- C10 (counterexample to the claim as stated): with an exhausted line
earlier in the batch, the uniqueness pass over a grid whose slot-1 line
holds two `MustBe` facts does fail - but with a `NoOptionsLeft`
contradiction, not a `ContradictingRequirements` one. -/
theorem double_mustbe_noptions_counterexample :
    dbExhaustedPlusDouble.cellKind 1 0 = some .activationMustBeOn ∧
    dbExhaustedPlusDouble.cellKind 1 1 = some .activationMustBeOn ∧
    (dbExhaustedPlusDouble.consolidate_unique_per_view .pos).1 = .error 14 ∧
    (dbExhaustedPlusDouble.consolidate_unique_per_view .pos).2.kindAt 14 =
      some (.contradiction .noOptionsLeft) := ⟨rfl, rfl, rfl, rfl⟩

/-- A fact reason only cites log entries strictly below `n`. -/
def reasonHandleLt (n : Nat) : FactReason → Prop
  | .fact h _ => h < n
  | .rule _ => True
  | .assumption => True

/-- Every justification of the fact cites handles strictly below `n`. -/
def GoodFact (n : Nat) (f : Fact) : Prop :=
  ∀ r ∈ f.reasons, reasonHandleLt n r

/-- The append-only log is justification-ordered: the fact at index `i`
cites only strictly smaller indices. -/
def FactDb.LogOrdered (db : FactDb) : Prop :=
  ∀ i f, db.facts[i]? = some f → GoodFact i f

/-- Every grid handle points into the log. -/
def FactDb.GridValid (db : FactDb) : Prop :=
  ∀ p a h, db.cell p a = some h → h < db.facts.length

theorem GoodFact.mono {n m : Nat} (h : n ≤ m) {f : Fact} (hf : GoodFact n f) :
    GoodFact m f := by
  intro r hr
  have := hf r hr
  cases r with
  | fact hh d => exact Nat.lt_of_lt_of_le this h
  | rule i => trivial
  | assumption => trivial

theorem kindAt_lt (db : FactDb) (h : Nat) (k : FactKind)
    (hk : db.kindAt h = some k) : h < db.facts.length := by
  unfold FactDb.kindAt at hk
  cases hg : db.facts[h]? with
  | none => rw [hg] at hk; cases hk
  | some f =>
    rw [List.getElem?_eq_some] at hg
    exact hg.1

theorem getElem?_append_cases {α : Type} (l ext : List α) (i : Nat) (b : α)
    (h : (l ++ ext)[i]? = some b) :
    (i < l.length ∧ l[i]? = some b) ∨
      (l.length ≤ i ∧ ext[i - l.length]? = some b) := by
  by_cases hi : i < l.length
  · left
    rw [List.getElem?_append_left hi] at h
    exact ⟨hi, h⟩
  · right
    have hge : l.length ≤ i := Nat.le_of_not_lt hi
    rw [List.getElem?_append_right hge] at h
    exact ⟨hge, h⟩

/-- Appending a well-cited fact keeps the log justification-ordered. -/
theorem logOrdered_append_one (db : FactDb) (f : Fact)
    (hlog : db.LogOrdered) (hf : GoodFact db.facts.length f) :
    ∀ i g, (db.facts ++ [f])[i]? = some g → GoodFact i g := by
  intro i g hg
  rcases getElem?_append_cases _ _ _ _ hg with ⟨hi, hg⟩ | ⟨hi, hg⟩
  · exact hlog i g hg
  · cases hd : i - db.facts.length with
    | zero =>
      rw [hd] at hg
      cases hg
      have : i = db.facts.length := by omega
      rw [this]
      exact hf
    | succ j => rw [hd] at hg; simp at hg

/-- Appending two well-cited facts keeps the log justification-ordered. -/
theorem logOrdered_append_two (db : FactDb) (f g : Fact)
    (hlog : db.LogOrdered) (hf : GoodFact db.facts.length f)
    (hg : GoodFact (db.facts.length + 1) g) :
    ∀ i x, (db.facts ++ [f, g])[i]? = some x → GoodFact i x := by
  intro i x hx
  rcases getElem?_append_cases _ _ _ _ hx with ⟨hi, hx⟩ | ⟨hi, hx⟩
  · exact hlog i x hx
  · cases hd : i - db.facts.length with
    | zero =>
      rw [hd] at hx
      cases hx
      have : i = db.facts.length := by omega
      rw [this]
      exact hf
    | succ j =>
      cases j with
      | zero =>
        rw [hd] at hx
        cases hx
        have : i = db.facts.length + 1 := by omega
        rw [this]
        exact hg
      | succ jj => rw [hd] at hx; simp at hx

/-- Reading back a `setCell`: either the freshly written handle at the
written cell, or an untouched cell of the old grid. -/
theorem setCell_cell_cases (db : FactDb) (P A p a : Fin 12) (h h' : Nat)
    (hr : (db.setCell P A h).cell p a = some h') :
    h' = h ∨ db.cell p a = some h' := by
  by_cases hpa : (p, a) = (P, A)
  · have hp : p = P := (Prod.mk.injEq .. ▸ hpa).1
    have ha : a = A := (Prod.mk.injEq .. ▸ hpa).2
    subst hp
    subst ha
    unfold FactDb.setCell FactDb.cell at hr
    simp only at hr
    by_cases hrow : p.val < db.fact_lookup.length
    · rw [list_getD_set_self _ _ _ _ hrow] at hr
      by_cases hcol : a.val < (db.fact_lookup.getD p.val []).length
      · rw [list_getD_set_self _ _ _ _ hcol] at hr
        cases hr
        exact Or.inl rfl
      · rw [List.set_eq_of_length_le (Nat.le_of_not_lt hcol)] at hr
        exact Or.inr hr
    · rw [List.set_eq_of_length_le (Nat.le_of_not_lt hrow)] at hr
      exact Or.inr hr
  · right
    rw [setCell_cell_ne db P A p a h hpa] at hr
    exact hr

/-- Invariant preservation for the insert-into-cell shape shared by the
empty-cell and overwriting-contradiction branches of
`integrate_single_fact`. -/
theorem insert_shape_invariants (db : FactDb) (f : Fact)
    (hlog : db.LogOrdered) (hgrid : db.GridValid)
    (hf : GoodFact db.facts.length f) :
    (FactDb.setCell { db with facts := db.facts ++ [f] } f.position
        f.activation db.facts.length).LogOrdered ∧
    (FactDb.setCell { db with facts := db.facts ++ [f] } f.position
        f.activation db.facts.length).GridValid ∧
    db.facts.length ≤
      (FactDb.setCell { db with facts := db.facts ++ [f] } f.position
        f.activation db.facts.length).facts.length := by
  refine ⟨?_, ?_, by simp [FactDb.setCell]⟩
  · intro i g hg
    exact logOrdered_append_one db f hlog hf i g hg
  · intro p a h' hc
    have hlen : (FactDb.setCell { db with facts := db.facts ++ [f] } f.position
        f.activation db.facts.length).facts.length = db.facts.length + 1 := by
      simp [FactDb.setCell]
    rw [hlen]
    rcases setCell_cell_cases _ _ _ _ _ _ _ hc with hh | hh
    · omega
    · have : db.cell p a = some h' := hh
      have := hgrid p a h' this
      omega

/-- Invariant preservation for the colliding branch of
`integrate_single_fact`. -/
theorem collision_shape_invariants (db : FactDb) (f : Fact) (eh : Nat)
    (hlog : db.LogOrdered) (hgrid : db.GridValid)
    (hf : GoodFact db.facts.length f) (heh : eh < db.facts.length) :
    ({ db with facts := db.facts ++
        [f, { f with
              kind := .contradiction .contradictingRequirements,
              reasons :=
                [.fact eh ⟨"integrate_single_fact"⟩,
                 .fact db.facts.length ⟨"integrate_single_fact"⟩] }] } :
      FactDb).LogOrdered ∧
    ({ db with facts := db.facts ++
        [f, { f with
              kind := .contradiction .contradictingRequirements,
              reasons :=
                [.fact eh ⟨"integrate_single_fact"⟩,
                 .fact db.facts.length ⟨"integrate_single_fact"⟩] }] } :
      FactDb).GridValid ∧
    db.facts.length ≤
      (db.facts ++
        [f, { f with
              kind := .contradiction .contradictingRequirements,
              reasons :=
                [.fact eh ⟨"integrate_single_fact"⟩,
                 .fact db.facts.length ⟨"integrate_single_fact"⟩] }]).length := by
  refine ⟨?_, ?_, by simp⟩
  · intro i g hg
    apply logOrdered_append_two db _ _ hlog hf _ i g hg
    intro r hr
    cases hr with
    | head => exact Nat.lt_succ_of_lt heh
    | tail _ hr2 =>
      cases hr2 with
      | head => exact Nat.lt_succ_self _
      | tail _ hr3 => cases hr3
  · intro p a h' hc
    have : db.cell p a = some h' := hc
    have := hgrid p a h' this
    simp only [List.length_append]
    omega

/-- `integrate_single_fact` preserves justification order and grid validity,
and the log only grows. -/
theorem isf_invariants (db : FactDb) (f : Fact)
    (hlog : db.LogOrdered) (hgrid : db.GridValid)
    (hf : GoodFact db.facts.length f) :
    (db.integrate_single_fact f).2.LogOrdered ∧
    (db.integrate_single_fact f).2.GridValid ∧
    db.facts.length ≤ (db.integrate_single_fact f).2.facts.length := by
  unfold FactDb.integrate_single_fact
  cases hcell : db.cell f.position f.activation with
  | none =>
    simp only [hcell]
    exact insert_shape_invariants db f hlog hgrid hf
  | some eh =>
    simp only [hcell]
    cases hget : db.facts[eh]? with
    | none =>
      simp only [hget]
      exact ⟨hlog, hgrid, Nat.le_refl _⟩
    | some existing =>
      simp only [hget]
      have heh : eh < db.facts.length := by
        rw [List.getElem?_eq_some] at hget
        exact hget.1
      cases hek : existing.kind <;> cases hfk : f.kind <;>
        simp only [hek, hfk] <;>
        first
          | exact ⟨hlog, hgrid, Nat.le_refl _⟩
          | exact insert_shape_invariants db f hlog hgrid hf
          | exact collision_shape_invariants db f eh hlog hgrid hf heh

/-- `integrate_consolidation_go` preserves the invariants whatever its
outcome, provided the batch only cites handles of the starting log. -/
theorem go_invariants (l : List Fact) (db : FactDb) (acc : ConsolidationResult)
    (hlog : db.LogOrdered) (hgrid : db.GridValid)
    (hl : ∀ f ∈ l, GoodFact db.facts.length f) :
    (db.integrate_consolidation_go l acc).2.LogOrdered ∧
    (db.integrate_consolidation_go l acc).2.GridValid ∧
    db.facts.length ≤ (db.integrate_consolidation_go l acc).2.facts.length := by
  induction l generalizing db acc with
  | nil => exact ⟨hlog, hgrid, Nat.le_refl _⟩
  | cons g rest ih =>
    unfold FactDb.integrate_consolidation_go
    obtain ⟨hlog1, hgrid1, hle1⟩ :=
      isf_invariants db g hlog hgrid (hl g (List.mem_cons_self g rest))
    have hrest : ∀ f ∈ rest, GoodFact (db.integrate_single_fact g).2.facts.length f :=
      fun f hf => (hl f (List.mem_cons_of_mem g hf)).mono hle1
    cases hexp : expect_without_contradiction (db.integrate_single_fact g).2
        (db.integrate_single_fact g).1 with
    | error e =>
      simp only [hexp]
      exact ⟨hlog1, hgrid1, hle1⟩
    | ok rr =>
      cases rr with
      | unchanged h =>
        simp only [hexp]
        obtain ⟨ha, hb, hc⟩ := ih _ _ hlog1 hgrid1 hrest
        exact ⟨ha, hb, Nat.le_trans hle1 hc⟩
      | integrated h =>
        simp only [hexp]
        obtain ⟨ha, hb, hc⟩ := ih _ _ hlog1 hgrid1 hrest
        exact ⟨ha, hb, Nat.le_trans hle1 hc⟩

/-- A successful `mustBeSearch` cites a resolving `MustBe` handle. -/
theorem mustBeSearch_some (db : FactDb) (v : ViewKind) (i : Fin 12)
    (h : Nat) (c : Fin 12) (hs : db.mustBeSearch v i = some (h, c)) :
    db.kindAt h = some .activationMustBeOn := by
  unfold FactDb.mustBeSearch at hs
  have := List.exists_of_findSome?_eq_some hs
  obtain ⟨a, -, ha⟩ := this
  cases hcell : db.cell (choose_position v i a) (choose_activation v i a) with
  | none => rw [hcell] at ha; cases ha
  | some hh =>
    rw [hcell] at ha
    cases hk : db.kindAt hh with
    | none => simp only [hk] at ha; cases ha
    | some k =>
      cases k with
      | contradiction kk => simp only [hk] at ha; cases ha
      | activationCannotBeOn => simp only [hk] at ha; cases ha
      | activationMustBeOn =>
        simp only [hk] at ha
        injection ha with ha1
        have hhh : hh = h := (Prod.mk.injEq .. ▸ ha1).1
        subst hhh
        exact hk

/-- Every reason accumulated by `lineScan` cites a resolving `CannotBe`
handle. -/
theorem lineScan_reasons (db : FactDb) (v : ViewKind) (i : Fin 12) :
    ∀ r ∈ (db.lineScan v i).2, ∃ h d, r = .fact h d ∧
      db.kindAt h = some .activationCannotBeOn := by
  unfold FactDb.lineScan
  have main : ∀ (l : List (Fin 12)) (acc : Possibilities × List FactReason),
      (∀ r ∈ acc.2, ∃ h d, r = .fact h d ∧
        db.kindAt h = some .activationCannotBeOn) →
      ∀ r ∈ (l.foldl (fun acc complement =>
        match db.cell (choose_position v i complement) (choose_activation v i complement) with
        | some h =>
          match db.kindAt h with
          | some (.contradiction _) => acc
          | some .activationMustBeOn => acc
          | some .activationCannotBeOn =>
            (acc.1, acc.2 ++ [.fact h ⟨"consolidate_views only_one_place_left"⟩])
          | none => acc
        | none => (acc.1.add complement, acc.2)) acc).2,
        ∃ h d, r = .fact h d ∧ db.kindAt h = some .activationCannotBeOn := by
    intro l
    induction l with
    | nil => intro acc hacc; exact hacc
    | cons c rest ih =>
      intro acc hacc
      rw [List.foldl_cons]
      apply ih
      cases hcell : db.cell (choose_position v i c) (choose_activation v i c) with
      | none => simp only [hcell]; exact hacc
      | some h =>
        simp only [hcell]
        cases hk : db.kindAt h with
        | none => simp only [hk]; exact hacc
        | some k =>
          cases k with
          | contradiction kk => simp only [hk]; exact hacc
          | activationMustBeOn => simp only [hk]; exact hacc
          | activationCannotBeOn =>
            simp only [hk]
            intro r hr
            rw [List.mem_append] at hr
            rcases hr with hr | hr
            · exact hacc r hr
            · rw [List.mem_singleton] at hr
              exact ⟨h, _, hr, hk⟩
  exact main (List.finRange 12) (.nothing, []) (by intro r hr; cases hr)

/-- Every fact a uniqueness pass derives cites only handles of the current
log. -/
theorem viewBatch_good (db : FactDb) (v : ViewKind) :
    ∀ f ∈ db.viewBatch v, GoodFact db.facts.length f := by
  intro f hf
  unfold FactDb.viewBatch at hf
  rw [List.mem_flatMap] at hf
  obtain ⟨i, -, hfi⟩ := hf
  unfold FactDb.lineIntegrations at hfi
  cases hs : db.mustBeSearch v i with
  | some pr =>
    rw [hs] at hfi
    rw [List.mem_filterMap] at hfi
    obtain ⟨c, -, hc⟩ := hfi
    by_cases hccmb : c = pr.2
    · simp only [hccmb, if_pos rfl] at hc; cases hc
    · simp only [if_neg hccmb] at hc
      cases hc
      intro r hr
      rw [List.mem_singleton] at hr
      rw [hr]
      exact kindAt_lt db pr.1 _ (mustBeSearch_some db v i pr.1 pr.2 (by rw [hs]))
  | none =>
    rw [hs] at hfi
    simp only at hfi
    have hscan := lineScan_reasons db v i
    cases hposs : (db.lineScan v i).1 with
    | single c =>
      rw [hposs] at hfi
      rw [List.mem_singleton] at hfi
      subst hfi
      intro r hr
      obtain ⟨h, d, rfl, hk⟩ := hscan r hr
      exact kindAt_lt db h _ hk
    | nothing =>
      rw [hposs] at hfi
      rw [List.mem_map] at hfi
      obtain ⟨c, -, hc⟩ := hfi
      subst hc
      intro r hr
      obtain ⟨h, d, rfl, hk⟩ := hscan r hr
      exact kindAt_lt db h _ hk
    | multiple =>
      rw [hposs] at hfi
      cases hfi

/-- Every fact the rule pass derives cites only the given's handle (plus a
rule index). -/
theorem ruleIntegrations_good (db : FactDb) (lock : RuneLock) :
    ∀ f ∈ db.ruleIntegrations lock, GoodFact db.facts.length f := by
  intro f hf
  unfold FactDb.ruleIntegrations at hf
  rw [List.mem_flatMap] at hf
  obtain ⟨g, hg, hf⟩ := hf
  rw [List.mem_flatMap] at hf
  obtain ⟨rl, -, hf⟩ := hf
  -- the given's handle resolves to a MustBe fact
  have hgood : g.2 < db.facts.length := by
    unfold FactDb.givens at hg
    rw [List.mem_flatMap] at hg
    obtain ⟨p, -, hg⟩ := hg
    rw [List.mem_filterMap] at hg
    obtain ⟨a, -, hg⟩ := hg
    obtain ⟨-, -, -, hk⟩ := givenAt_some db p a g hg
    exact kindAt_lt db g.2 _ hk
  unfold FactDb.ruleIntegrationsFor at hf
  cases hp : rl.2.activationPair with
  | some pr =>
    rw [hp] at hf
    rw [List.mem_flatMap] at hf
    obtain ⟨t, -, hf⟩ := hf
    by_cases hthis : t.1 = g.1.2
    · simp only [if_pos hthis] at hf
      rw [List.mem_filterMap] at hf
      obtain ⟨poss, -, hf⟩ := hf
      cases hv : rl.2.validate_tuple lock (g.1.1, g.1.2) (poss, t.2) with
      | ok u => rw [hv] at hf; cases hf
      | error e =>
        rw [hv] at hf
        cases hf
        intro r hr
        cases hr with
        | head => exact hgood
        | tail _ hr2 =>
          cases hr2 with
          | head => trivial
          | tail _ hr3 => cases hr3
    · simp only [if_neg hthis] at hf
      cases hf
  | none =>
    rw [hp] at hf
    cases hrl : rl.2 with
    | runeFollowsImmediately rune1 rune2 =>
      rw [hrl] at hf
      simp only at hf
      rw [List.mem_flatMap] at hf
      obtain ⟨t, -, hf⟩ := hf
      by_cases hrune : lock.runeAt g.1.1 = t.1
      · simp only [if_pos hrune] at hf
        cases haff : t.2 with
        | ok affected =>
          rw [haff] at hf
          rw [List.mem_filterMap] at hf
          obtain ⟨poss, -, hf⟩ := hf
          cases hv : RuleKind.validate_tuple (.runeFollowsImmediately rune1 rune2)
              lock (g.1.1, g.1.2) (poss, affected) with
          | ok u => rw [hv] at hf; cases hf
          | error e =>
            rw [hv] at hf
            cases hf
            intro r hr
            cases hr with
            | head => exact hgood
            | tail _ hr2 =>
              cases hr2 with
              | head => trivial
              | tail _ hr3 => cases hr3
        | error e =>
          rw [haff] at hf
          rw [List.mem_singleton] at hf
          cases hf
          intro r hr
          cases hr with
          | head => exact hgood
          | tail _ hr2 =>
            cases hr2 with
            | head => trivial
            | tail _ hr3 => cases hr3
      · simp only [if_neg hrune] at hf
        cases hf
    | alwanese a b => rw [hrl] at hp; cases hp
    | antakianConjugates a b => rw [hrl] at hp; cases hp
    | alwaneseConjugates a b => rw [hrl] at hp; cases hp
    | differentRunes a b => rw [hrl] at hp; cases hp
    | antakianTwins a b => rw [hrl] at hp; cases hp
    | increaseSantor a b => rw [hrl] at hp; cases hp
    | max0Conductive a b => rw [hrl] at hp; cases hp

/-- A full consolidation pass preserves the invariants whatever its
outcome. -/
theorem pass_invariants (db : FactDb) (lock : RuneLock)
    (hlog : db.LogOrdered) (hgrid : db.GridValid) :
    (db.consolidationPass lock).2.LogOrdered ∧
    (db.consolidationPass lock).2.GridValid := by
  unfold FactDb.consolidationPass
  cases hpos : db.consolidate_unique_per_view .pos with
  | mk r1 db1 =>
    have h1 : db1.LogOrdered ∧ db1.GridValid := by
      obtain ⟨ha, hb, -⟩ :=
        go_invariants (db.viewBatch .pos) db .unchanged hlog hgrid
          (viewBatch_good db .pos)
      have h2 : (db.integrate_consolidation_go (db.viewBatch .pos) .unchanged).2 = db1 :=
        congrArg Prod.snd hpos
      rw [h2] at ha hb
      exact ⟨ha, hb⟩
    cases r1 with
    | error e => exact h1
    | ok rr1 =>
      simp only []
      cases hact : db1.consolidate_unique_per_view .act with
      | mk r2 db2 =>
        have h2 : db2.LogOrdered ∧ db2.GridValid := by
          obtain ⟨ha, hb, -⟩ :=
            go_invariants (db1.viewBatch .act) db1 .unchanged h1.1 h1.2
              (viewBatch_good db1 .act)
          have hh : (db1.integrate_consolidation_go (db1.viewBatch .act) .unchanged).2 = db2 :=
            congrArg Prod.snd hact
          rw [hh] at ha hb
          exact ⟨ha, hb⟩
        cases r2 with
        | error e => exact h2
        | ok rr2 =>
          simp only []
          cases hrules : db2.consolidate_rules lock with
          | mk r3 db3 =>
            have h3 : db3.LogOrdered ∧ db3.GridValid := by
              obtain ⟨ha, hb, -⟩ :=
                go_invariants (db2.ruleIntegrations lock) db2 .unchanged h2.1 h2.2
                  (ruleIntegrations_good db2 lock)
              have hh : (db2.integrate_consolidation_go (db2.ruleIntegrations lock)
                  .unchanged).2 = db3 :=
                congrArg Prod.snd hrules
              rw [hh] at ha hb
              exact ⟨ha, hb⟩
            cases r3 with
            | error e => exact h3
            | ok rr3 =>
              cases rr1 <;> cases rr2 <;> cases rr3 <;> exact h3

/-- The consolidation loop preserves the invariants whatever its outcome. -/
theorem loop_invariants (fuel : Nat) (db : FactDb) (lock : RuneLock)
    (hlog : db.LogOrdered) (hgrid : db.GridValid)
    (r : Except Nat Unit) (db' : FactDb)
    (h : db.consolidationLoop lock fuel = some (r, db')) :
    db'.LogOrdered ∧ db'.GridValid := by
  induction fuel generalizing db with
  | zero => simp [FactDb.consolidationLoop] at h
  | succ fuel ih =>
    unfold FactDb.consolidationLoop at h
    cases hpass : db.consolidationPass lock with
    | mk r1 db1 =>
      have h1 : db1.LogOrdered ∧ db1.GridValid := by
        obtain ⟨ha, hb⟩ := pass_invariants db lock hlog hgrid
        have hh : (db.consolidationPass lock).2 = db1 := congrArg Prod.snd hpass
        rw [hh] at ha hb
        exact ⟨ha, hb⟩
      simp only [hpass] at h
      cases r1 with
      | error e =>
        simp at h
        obtain ⟨-, hdb⟩ := h
        subst hdb
        exact h1
      | ok rr =>
        cases rr with
        | unchanged =>
          simp at h
          obtain ⟨-, hdb⟩ := h
          subst hdb
          exact h1
        | changes => exact ih db1 h1.1 h1.2 h

/-- `integrate_and_consolidate` with an assumption-style fact preserves the
invariants whatever its outcome. -/
theorem iac_invariants (db : FactDb) (f : Fact) (lock : RuneLock) (fuel : Nat)
    (hlog : db.LogOrdered) (hgrid : db.GridValid)
    (hf : ∀ r ∈ f.reasons, reasonHandleLt db.facts.length r)
    (r : Except Nat Unit) (db' : FactDb)
    (h : db.integrate_and_consolidate f lock fuel = some (r, db')) :
    db'.LogOrdered ∧ db'.GridValid := by
  unfold FactDb.integrate_and_consolidate at h
  obtain ⟨hlog1, hgrid1, -⟩ := isf_invariants db f hlog hgrid hf
  cases hexp : expect_without_contradiction (db.integrate_single_fact f).2
      (db.integrate_single_fact f).1 with
  | error e =>
    simp only [hexp] at h
    simp at h
    obtain ⟨-, hdb⟩ := h
    subst hdb
    exact ⟨hlog1, hgrid1⟩
  | ok rr =>
    cases rr with
    | unchanged hh =>
      simp only [hexp] at h
      simp at h
      obtain ⟨-, hdb⟩ := h
      subst hdb
      exact ⟨hlog1, hgrid1⟩
    | integrated hh =>
      simp only [hexp] at h
      exact loop_invariants fuel _ lock hlog1 hgrid1 r db' h

/-- The databases the `FactualSolver` can ever hold: reachable from the
empty database through `assume`-style `MustBe`/`Assumption` integrations,
keeping both the successful and the contradicted outcomes (contradicted
branches stay in the tree and remain inspectable). -/
inductive ReachableSys (lock : RuneLock) : FactDb → Prop where
  | empty : ReachableSys lock FactDb.new
  | step (db : FactDb) (position activation : Fin 12) (fuel : Nat)
      (r : Except Nat Unit) (db' : FactDb) :
      ReachableSys lock db →
      db.integrate_and_consolidate
        { kind := .activationMustBeOn, reasons := [.assumption],
          position := position, activation := activation } lock fuel =
        some (r, db') →
      ReachableSys lock db'

/-- Every system-reachable database satisfies both invariants. -/
theorem reachable_sys_invariants (lock : RuneLock) (db : FactDb)
    (h : ReachableSys lock db) : db.LogOrdered ∧ db.GridValid := by
  induction h with
  | empty =>
    constructor
    · intro i f hf
      have hf2 : (([] : List Fact))[i]? = some f := hf
      simp at hf2
    · intro p a hh hc
      have : FactDb.new.cell p a = none := by
        unfold FactDb.new FactDb.cell
        fin_cases p <;> fin_cases a <;> rfl
      rw [this] at hc
      cases hc
  | step db p a fuel r db' _ hstep ih =>
    exact iac_invariants db _ lock fuel ih.1 ih.2
      (by intro rr hrr; rw [List.mem_singleton] at hrr; rw [hrr]; trivial)
      r db' hstep

/-- On a justification-ordered log the explanation recursion terminates:
fuel exceeding the handle suffices, because every visited handle strictly
decreases. -/
theorem explain_terminates (db : FactDb) (hlog : db.LogOrdered) :
    ∀ (fuel handle : Nat), handle < fuel → db.explainVisit fuel handle = true := by
  intro fuel
  induction fuel with
  | zero => intro handle hh; omega
  | succ fuel ih =>
    intro handle hh
    unfold FactDb.explainVisit
    cases hg : db.facts[handle]? with
    | none => rfl
    | some fact =>
      simp only [hg]
      rw [List.all_eq_true]
      intro key hkey
      rw [List.all_eq_true]
      intro r hr
      rw [List.mem_dedup] at hkey
      rw [List.mem_filterMap] at hkey
      obtain ⟨h1, hmem1, heq1⟩ := hkey
      rw [List.mem_filterMap] at hmem1
      obtain ⟨r0, hr0, hro⟩ := hmem1
      have hh1 : h1 < handle := by
        cases r0 with
        | fact hf d0 =>
          injection hro with hro1
          subst hro1
          exact hlog handle fact hg _ hr0
        | rule i0 => cases hro
        | assumption => cases hro
      cases hf1 : db.facts[h1]? with
      | none => rw [hf1] at heq1; cases heq1
      | some f1 =>
        rw [hf1, Option.map_some'] at heq1
        injection heq1 with heq1
        have hkr : key.reasons = f1.reasons := by
          rw [← heq1]
          rfl
        rw [hkr] at hr
        cases r with
        | rule i0 => rfl
        | assumption => rfl
        | fact h2 d2 =>
          have hh2 : h2 < h1 := hlog h1 f1 hf1 _ hr
          simp only []
          apply ih
          omega

/-- C7: in every system-reachable fact database, each justification of the
fact at log index i that cites another fact cites a strictly smaller index
(the append-only log order is topological), and consequently the recursive
explanation traversal completes for every handle with fuel handle + 1,
without any cycle detection. -/
theorem justifications_strictly_earlier (lock : RuneLock) (db : FactDb)
    (h : ReachableSys lock db) :
    (∀ i f, db.facts[i]? = some f →
      ∀ hh d, FactReason.fact hh d ∈ f.reasons → hh < i) ∧
    (∀ handle, db.explainVisit (handle + 1) handle = true) := by
  have hlog := (reachable_sys_invariants lock db h).1
  constructor
  · intro i f hf hh d hmem
    exact hlog i f hf _ hmem
  · intro handle
    exact explain_terminates db hlog (handle + 1) handle (Nat.lt_succ_self _)

/-- The contradicted database reached by assuming value 1 on the already
decided slot 0 of `dbAfterAssume`: the collision appends fact 23 and
contradiction 24 and the call fails with handle 24. -/
def dbContr : FactDb :=
  iacResultDb (dbAfterAssume.integrate_and_consolidate
    { kind := .activationMustBeOn, reasons := [.assumption],
      position := 0, activation := 1 } lockNoRules 4) dbAfterAssume

/-- C7 witness: the 25-fact contradicted database explains its contradiction
(handle 24) within fuel 25. -/
theorem justifications_strictly_earlier_witness :
    dbContr.facts.length = 25 ∧ dbContr.explainVisit 25 24 = true :=
  ⟨rfl,
   (justifications_strictly_earlier lockNoRules dbContr
      (ReachableSys.step dbAfterAssume 0 1 4 (.error 24) dbContr
        (ReachableSys.step FactDb.new 0 0 4 (.ok ()) dbAfterAssume
          ReachableSys.empty rfl)
        rfl)).2 24⟩

theorem list_getD_append_left {α : Type} (l l' : List α) (i : Nat) (d : α)
    (h : i < l.length) : (l ++ l').getD i d = l.getD i d := by
  simp [List.getD, List.getElem?_append_left h]

theorem list_getD_default_irrel {α : Type} (l : List α) (i : Nat) (d d' : α)
    (h : i < l.length) : l.getD i d = l.getD i d' := by
  simp [List.getD, List.getElem?_eq_getElem h]

theorem list_getD_append_length {α : Type} (l : List α) (x : α) (d : α) :
    (l ++ [x]).getD l.length d = x := by
  simp [List.getD, list_getElem_append_one]

/-- The all-empty placeholder node used as the (never relevant) `getD`
default when inspecting trees. -/
def emptyNode : AssumptionTreeNode FactSolverState :=
  { parent := none, data := FactSolverState.rootState, children := [] }

/-- C6 (amended): whenever `assume` completes, it attaches the fresh node as
a child of the cursor node and moves the cursor there - with no check of
that node's status whatsoever, so a node whose status is `Contradicted` can
gain new children exactly like an alive one. -/
theorem assume_attaches_child_regardless (s : FactualSolver) (lock : RuneLock)
    (a p : Fin 12) (fuel : Nat) (s' : FactualSolver)
    (hres : s.assume lock a p fuel = some s')
    (hcur : s.current < s.states.nodes.length) :
    s'.current = s.states.nodes.length ∧
    (s'.states.nodes.getD s'.current emptyNode).parent = some s.current ∧
    (s'.states.nodes.getD s.current emptyNode).children =
      (s.states.nodes.getD s.current emptyNode).children ++
        [s.states.nodes.length] := by
  unfold FactualSolver.assume at hres
  simp only at hres
  cases hiac : s.currentNode.data.facts.integrate_and_consolidate
      { kind := .activationMustBeOn, reasons := [.assumption],
        position := p, activation := a } lock fuel with
  | none => rw [hiac] at hres; cases hres
  | some pr =>
    rw [hiac] at hres
    simp only at hres
    cases hres
    unfold AssumptionTree.insert_child
    simp only
    have hlen1 : (s.states.nodes ++
        [({ parent := some s.current,
            data := { facts := pr.2, action := .assumeAct p a,
                      state := match pr.1 with
                               | .ok _ => .unexplored
                               | .error reason => .contradicts reason },
            children := [] } : AssumptionTreeNode FactSolverState)]).length =
        s.states.nodes.length + 1 := by
      simp
    constructor
    · simp
    constructor
    · -- the fresh node sits at index `length`, beyond the updated parent
      rw [hlen1]
      simp only [Nat.add_sub_cancel]
      rw [list_getD_set_ne _ _ _ _ _ (by omega)]
      rw [list_getD_append_length]
    · -- the parent's child list got the fresh handle appended
      rw [hlen1]
      simp only [Nat.add_sub_cancel]
      rw [list_getD_set_self _ _ _ _ (by simp; omega)]
      rw [list_getD_append_left _ _ _ _ hcur]
      simp only []
      rw [list_getD_default_irrel s.states.nodes s.current _ emptyNode hcur]

/-- The solver after assuming value 0 on slot 0 from the root. -/
def solverS1 : FactualSolver :=
  (FactualSolver.new.assume lockNoRules 0 0 4).getD FactualSolver.new

/-- The solver after additionally assuming value 1 on slot 0: this branch
contradicts (handle 24) and the cursor stays on the contradicted node 2. -/
def solverS2 : FactualSolver :=
  (solverS1.assume lockNoRules 1 0 4).getD solverS1

/-- The solver after assuming value 2 on slot 0 from the contradicted
node 2. -/
def solverS3 : FactualSolver :=
  (solverS2.assume lockNoRules 2 0 4).getD solverS2

/-- C6 (counterexample to the claim as stated): node 2 of `solverS2` is
marked Contradicted, yet the next `assume` creates node 3 as its child - a
terminal node gains a child. -/
theorem contradicted_node_gains_child :
    solverS2.current = 2 ∧
    (solverS2.states.nodes.getD 2 emptyNode).data.state = .contradicts 24 ∧
    (solverS2.assume lockNoRules 2 0 4).isSome = true ∧
    (solverS3.states.nodes.getD 2 emptyNode).children = [3] ∧
    (solverS3.states.nodes.getD 3 emptyNode).parent = some 2 := by
  refine ⟨rfl, rfl, rfl, rfl, rfl⟩

/-- C6 witness: the amended theorem applied to the contradicted cursor node
of `solverS2`. -/
theorem assume_attaches_child_regardless_witness :
    solverS3.current = solverS2.states.nodes.length ∧
    (solverS3.states.nodes.getD solverS3.current emptyNode).parent =
      some solverS2.current ∧
    (solverS3.states.nodes.getD solverS2.current emptyNode).children =
      (solverS2.states.nodes.getD solverS2.current emptyNode).children ++
        [solverS2.states.nodes.length] :=
  assume_attaches_child_regardless solverS2 lockNoRules 2 0 4 solverS3 rfl
    (by decide)

end Runelock
